import Mathlib

/-!
# ESCape32-Update: the update/query protocol engine of `src/main.c`

A shallow embedding of `main.c`.  The transport primitives of `common.h`
(`openserial`, `sendval`, `recvval`, `senddata`, `recvdata`) and the C library
calls (`fopen`, `fread`, `ferror`, `printf`, `close`) are not part of `main.c`;
they are taken as parameters: every call is recorded in a trace, and what a call
returns comes from an environment `Env`.

C `int` values are modelled by `Int`, bytes (`uint8_t`) by `UInt8`.  All `int`
arithmetic of `main.c` stays far below `2^31` (sizes are at most `26624`), so no
wrap-around is modelled.
-/

namespace ESCape32

/-! ## Constants (`main.c` lines 27-42) -/

def CMD_PROBE : Int := 0
def CMD_INFO : Int := 1
def CMD_READ : Int := 2
def CMD_WRITE : Int := 3
def CMD_UPDATE : Int := 4

def RES_OK : Int := 0
def RES_ERROR : Int := 1

def opt_f : Nat := 1
def opt_B : Nat := 2
def opt_V : Nat := 4

/-! ## The world outside `main.c` -/

/-- One call on the serial connection, in the order the calls are made.
`senddata off len bytes` is the call `senddata(fd, data + off, len)`; `bytes` is the
content of that memory range. -/
inductive Event where
  | openserial
  | sendval (v : Int)
  | senddata (off len : Int) (bytes : List UInt8)
  | recvval
  | recvdata
  | close
deriving DecidableEq

/-- One `printf` of `main.c` on the standard output. -/
inductive Output where
  | version
  | connecting
  | updatingBootloader
  | updatingFirmware
  | progress (pct : Int)
  | done
  | fetching
  | blRevision (rev : Nat)
  | fwRevision (rev : Nat) (name : List UInt8)
  | fwNotInstalled
deriving DecidableEq

/-- How the process ends.  `ret` is `return` from `main`; `errx` is the call
`errx(1, "%s (result %d, expected %d)", msg, res, val)` of `checkres`; `err` is
`err(1, "%s", filename)`; `invalidImage` is `errx(1, "%s: Invalid image", filename)`;
`fuel` marks a loop that was given too few iterations (never reached from `main`). -/
inductive Exit where
  | ret (code : Int)
  | errx (msg : String) (res val : Int)
  | err (filename : String)
  | invalidImage (filename : String)
  | fuel
deriving DecidableEq

/-- The exit status of the process. -/
def Exit.status : Exit → Option Int
  | .ret code => some code
  | .errx _ _ _ => some 1
  | .err _ => some 1
  | .invalidImage _ => some 1
  | .fuel => none

/-- What the device answers to one receive call: `val` is what `recvval` or `recvdata`
returns, `data` the bytes `recvdata` stores into the buffer it is given. -/
structure Reply where
  val : Int
  data : List UInt8

/-- The stream `fopen` returns: `bytes` are the bytes `fread` can deliver, `error` is
what `ferror` reports after the `fread`. -/
structure FileStream where
  bytes : List UInt8
  error : Bool

/-- Everything `main` reads from outside: `dev k` is the reply to the `k`-th receive
call (counted from 0), `fopen` the result of `fopen(filename, "r")` (`none` is `NULL`),
`blrest` and `fwrest` the memory that follows the bytes `recvdata` stored at `blinfo`
and at `fwinfo`. -/
structure Env where
  dev : Nat → Reply
  fopen : Option FileStream
  blrest : List UInt8
  fwrest : List UInt8

/-- The record of a run: the transport calls made, how many of them were receives,
and the lines printed. -/
structure State where
  trace : List Event
  nrecv : Nat
  out : List Output
deriving DecidableEq

/-- A program fragment either goes on with a value or ends the process. -/
inductive Res (α : Type) where
  | cont (a : α) (s : State)
  | halt (e : Exit) (s : State)
deriving DecidableEq

/-- The record of the run at the end of a fragment. -/
def Res.state {α : Type} : Res α → State
  | .cont _ s => s
  | .halt _ s => s

/-- The way the process ended, if it did. -/
def Res.exit? {α : Type} : Res α → Option Exit
  | .cont _ _ => none
  | .halt e _ => some e

def Prog (α : Type) : Type := State → Res α

def Prog.pure {α : Type} (a : α) : Prog α := fun s => .cont a s

def Prog.bind {α β : Type} (x : Prog α) (f : α → Prog β) : Prog β := fun s =>
  match x s with
  | .cont a s1 => f a s1
  | .halt e s1 => .halt e s1

instance : Monad Prog where
  pure := Prog.pure
  bind := Prog.bind

/-- End the process. -/
def halt {α : Type} (e : Exit) : Prog α := fun s => .halt e s

def emit (e : Event) : Prog Unit := fun s =>
  .cont () { s with trace := s.trace ++ [e] }

def printf (o : Output) : Prog Unit := fun s =>
  .cont () { s with out := s.out ++ [o] }

def openserial : Prog Unit := emit .openserial

def close : Prog Unit := emit .close

def sendval (v : Int) : Prog Unit := emit (.sendval v)

/-- The call `senddata(fd, data + off, len)`. -/
def senddata (data : List UInt8) (off len : Int) : Prog Unit :=
  emit (.senddata off len ((data.drop off.toNat).take len.toNat))

def recvval (env : Env) : Prog Int := fun s =>
  .cont (env.dev s.nrecv).val
    { s with trace := s.trace ++ [.recvval], nrecv := s.nrecv + 1 }

/-- The call `recvdata(fd, buf)`: returns the length and the bytes stored at `buf`. -/
def recvdata (env : Env) : Prog (Int × List UInt8) := fun s =>
  .cont ((env.dev s.nrecv).val, (env.dev s.nrecv).data)
    { s with trace := s.trace ++ [.recvdata], nrecv := s.nrecv + 1 }

/-! ## The functions of `main.c` -/

/-- The test `opts & bit` of `main.c`. -/
def flag (opts bit : Nat) : Bool := opts &&& bit != 0

/-- Lines 75-78. -/
def checkres (opts : Nat) (res val : Int) (msg : String) : Prog Unit :=
  if res = val ∨ flag opts opt_f then pure ()
  else halt (.errx msg res val)

/-- Lines 80-82. -/
def recvack (env : Env) (opts : Nat) (msg : String) : Prog Unit := do
  let res ← recvval env
  checkres opts res RES_OK msg

/-- Lines 84-88. -/
def maxlen (pos size : Int) : Int :=
  let len := size - pos
  if len > 1024 then 1024 else len

/-- Line 114: `sizeof data`, the capacity of the image buffer for the target. -/
def capacity (opts : Nat) : Int := if flag opts opt_B then 4096 else 26624

/-- Lines 113-119: read and validate the image.  Returns the buffer `data` (its first
`size` bytes, the only ones `fread` stored) and `size`. -/
def loadImage (env : Env) (opts : Nat) (filename : String) : Prog (List UInt8 × Int) := do
  let cap : Int := capacity opts
  match env.fopen with
  | none => halt (.err filename)
  | some f =>
    let data := f.bytes.take cap.toNat
    let size : Int := data.length
    if size = 0 ∧ f.error then halt (.err filename)
    else if size = 0 ∨ size = cap ∨ Int.land size 3 ≠ 0 then halt (.invalidImage filename)
    else pure (data, size)

/-- Lines 123-128: the loop `for (int pos = 0; pos < size; pos += 1024)` of the
bootloader update, entered at `pos` with at most `fuel` iterations allowed. -/
def blLoop (env : Env) (opts : Nat) (data : List UInt8) (size : Int) :
    Nat → Int → Prog Unit
  | fuel, pos =>
    if pos < size then
      match fuel with
      | 0 => halt .fuel
      | fuel + 1 => do
        printf (.progress (Int.tdiv (pos * 100) size))
        senddata data pos (maxlen pos size)
        recvack env opts "Error writing data"
        blLoop env opts data size fuel (pos + 1024)
    else pure ()

/-- Lines 132-139: the loop of the firmware update. -/
def fwLoop (env : Env) (opts : Nat) (data : List UInt8) (size : Int) :
    Nat → Int → Prog Unit
  | fuel, pos =>
    if pos < size then
      match fuel with
      | 0 => halt .fuel
      | fuel + 1 => do
        printf (.progress (Int.tdiv (pos * 100) size))
        sendval CMD_WRITE
        sendval (Int.tdiv pos 1024)
        senddata data pos (maxlen pos size)
        recvack env opts "Error writing data"
        fwLoop env opts data size fuel (pos + 1024)
    else pure ()

/-- The load `*(uint16_t *)p` on a little-endian host, `mem` being the memory at `p`. -/
def load16 (mem : List UInt8) : Nat :=
  (mem.getD 0 0).toNat + 256 * (mem.getD 1 0).toNat

/-- The bytes `printf("%s", p)` prints: the memory at `p` up to the first null byte. -/
def cstr (mem : List UInt8) : List UInt8 := mem.takeWhile (fun b => b != 0)

/-- Lines 153-154, `mem` being the memory at `fwinfo`. -/
def printFwInfo (mem : List UInt8) : Output :=
  if load16 mem = 0x32ea then .fwRevision (mem.getD 2 0).toNat (cstr (mem.drop 4))
  else .fwNotInstalled

/-- Lines 104-157 of `main`, after `parseargs` has set `opts` and `filename`. -/
def main (env : Env) (opts : Nat) (filename : Option String) : Prog Unit := do
  if flag opts opt_V then
    printf .version
    halt (.ret 0)
  else
    printf .connecting
    openserial
    sendval CMD_PROBE
    recvack env opts "Connection failed"
    match filename with
    | some name =>
      let (data, size) ← loadImage env opts name
      if flag opts opt_B then
        printf .updatingBootloader
        sendval CMD_UPDATE
        blLoop env opts data size size.toNat 0
        recvack env opts "Update failed"
      else
        printf .updatingFirmware
        fwLoop env opts data size size.toNat 0
      printf .done
    | none =>
      printf .fetching
      sendval CMD_INFO
      let (len, blinfo) ← recvdata env
      checkres opts len 32 "Error reading data"
      printf (.blRevision ((blinfo ++ env.blrest).getD 0 0).toNat)
      sendval CMD_READ
      sendval 0
      sendval 4
      let (len, fwinfo) ← recvdata env
      checkres opts len 20 "Error reading data"
      printf (printFwInfo (fwinfo ++ env.fwrest))
    close
    halt (.ret 0)

/-- The state in which `main` starts. -/
def State.init : State := { trace := [], nrecv := 0, out := [] }

/-- A whole run of the program. -/
def run (env : Env) (opts : Nat) (filename : Option String) : Res Unit :=
  main env opts filename State.init

/-! ## Vocabulary of the statements -/

/-- A device that answers every receive with `r`. -/
def constDev (r : Reply) : Nat → Reply := fun _ => r

/-- The result the program expects from its `j`-th receive call: `RES_OK` from every
`recvack`, and in a query (no filename) the lengths 32 and 20 from the two `recvdata`. -/
def expected (filename : Option String) (j : Nat) : Int :=
  match filename, j with
  | none, 1 => 32
  | none, 2 => 20
  | _, _ => RES_OK

/-- The check made on the `j`-th receive call passes. -/
def passes (env : Env) (opts : Nat) (filename : Option String) (j : Nat) : Prop :=
  (env.dev j).val = expected filename j ∨ flag opts opt_f = true

instance (env : Env) (opts : Nat) (filename : Option String) (j : Nat) :
    Decidable (passes env opts filename j) := by
  unfold passes; infer_instance

/-- The number of iterations of `for (pos = 0; pos < size; pos += 1024)`. -/
def nchunks (size : Int) : Nat := ((size + 1023) / 1024).toNat

/-- The call `senddata(fd, data + pos, maxlen(pos, size))` of iteration `k`, where
`pos = 1024 * k`. -/
def chunkCall (data : List UInt8) (size : Int) (k : Nat) : Event :=
  .senddata (1024 * (k : Int)) (maxlen (1024 * (k : Int)) size)
    ((data.drop (1024 * (k : Int)).toNat).take (maxlen (1024 * (k : Int)) size).toNat)

/-- The transport calls of iteration `k` of the firmware loop (lines 135-138). -/
def fwCalls (data : List UInt8) (size : Int) (k : Nat) : List Event :=
  [.sendval CMD_WRITE, .sendval (Int.tdiv (1024 * (k : Int)) 1024), chunkCall data size k,
    .recvval]

/-- The transport calls of iteration `k` of the bootloader loop (lines 126-127). -/
def blCalls (data : List UInt8) (size : Int) (k : Nat) : List Event :=
  [chunkCall data size k, .recvval]

/-- The progress line of iteration `k` (lines 124 and 133). -/
def progressLine (size : Int) (k : Nat) : Output :=
  .progress (Int.tdiv (1024 * (k : Int) * 100) size)

/-- The record of the run after further calls `evs`, of which `nr` are receives, and
further lines `outs`. -/
def State.after (s : State) (evs : List Event) (nr : Nat) (outs : List Output) : State :=
  { trace := s.trace ++ evs, nrecv := s.nrecv + nr, out := s.out ++ outs }

/-- The event is a receive call. -/
def Event.isRecv : Event → Bool
  | .recvval => true
  | .recvdata => true
  | _ => false

/-- The event is a send call. -/
def Event.isSend : Event → Bool
  | .sendval _ => true
  | .senddata _ _ _ => true
  | _ => false

/-- The `len` arguments of the `senddata` calls of a trace, in order. -/
def chunkLens (t : List Event) : List Int :=
  t.filterMap (fun e => match e with
    | .senddata _ len _ => some len
    | _ => none)

/-- The image invariant of the specification: `0 < length < capacity` and
`length % 4 == 0`. -/
def validLength (opts : Nat) (length : Int) : Prop :=
  0 < length ∧ length < capacity opts ∧ length % 4 = 0

instance (opts : Nat) (length : Int) : Decidable (validLength opts length) := by
  unfold validLength; infer_instance

/-- The bytes `fread(data, 1, sizeof data, f)` stores into `data`. -/
def readData (opts : Nat) (f : FileStream) : List UInt8 :=
  f.bytes.take (capacity opts).toNat

/-- The value `fread(data, 1, sizeof data, f)` returns: the number of bytes read. -/
def readSize (opts : Nat) (f : FileStream) : Int := ((readData opts f).length : Int)

/-- The calls of the probe exchange, after the connection is opened (lines 109-111). -/
def probeCalls : List Event := [.openserial, .sendval CMD_PROBE, .recvval]

/-- The Write exchanges of a trace: for every `sendval(fd, CMD_WRITE)` that is followed
by a `sendval` and then a `senddata`, the value of that second `sendval` (the block
number) and the offset of the chunk sent after it. -/
def writeExchanges : List Event → List (Int × Int)
  | [] => []
  | e :: rest =>
    match e, rest with
    | .sendval c, .sendval b :: .senddata off _ _ :: _ =>
      if c = CMD_WRITE then (b, off) :: writeExchanges rest else writeExchanges rest
    | _, _ => writeExchanges rest

/-- The Write exchange of block `k` in the words of the specification: send `Write`
(3), send the integer `k`, send the chunk of `min(1024, L - 1024k)` bytes at offset
`1024k`, receive one value. -/
def specWriteExchange (image : List UInt8) (L : Int) (k : Nat) : List Event :=
  [.sendval 3, .sendval (k : Int),
    .senddata (1024 * (k : Int)) (min 1024 (L - 1024 * (k : Int)))
      ((image.drop (1024 * k)).take (min 1024 (L - 1024 * (k : Int))).toNat),
    .recvval]

/-- The chunk exchange of the bootloader update in the words of the specification: send
the chunk of `min(1024, L - 1024k)` bytes at offset `1024k`, receive one value. -/
def specChunkExchange (image : List UInt8) (L : Int) (k : Nat) : List Event :=
  [.senddata (1024 * (k : Int)) (min 1024 (L - 1024 * (k : Int)))
      ((image.drop (1024 * k)).take (min 1024 (L - 1024 * (k : Int))).toNat),
    .recvval]

/-! ## Concrete inputs -/

/-- A device that acknowledges every receive with `RES_OK` and stores no data. -/
def okDev : Nat → Reply := constDev ⟨RES_OK, []⟩

/-- An 8-byte image file read without error, on a device that acknowledges everything. -/
def env8 : Env :=
  { dev := okDev, fopen := some ⟨[1, 2, 3, 4, 5, 6, 7, 8], false⟩, blrest := [], fwrest := [] }

/-- The image of scenario A: 1028 bytes read without error, every reply `RES_OK`. -/
def env1028 : Env :=
  { dev := okDev, fopen := some ⟨List.replicate 1028 7, false⟩, blrest := [], fwrest := [] }

/-- The 8-byte image on a device that answers every receive with `RES_ERROR`. -/
def envError : Env := { env8 with dev := constDev ⟨RES_ERROR, []⟩ }

/-- The 8-byte image on a device that answers the probe with `RES_OK` and the next
receive with `RES_ERROR`. -/
def envError1 : Env :=
  { env8 with dev := fun j => if j = 1 then ⟨RES_ERROR, []⟩ else ⟨RES_OK, []⟩ }

/-- A 20-byte firmware record with the magic, revision 7 and the name `ESC`. -/
def recordESC : List UInt8 :=
  [0xEA, 0x32, 0x07, 0, 0x45, 0x53, 0x43, 0, 0, 0, 0, 0, 0, 0, 0, 0, 0, 0, 0, 0]

/-- A 20-byte firmware record with the magic, revision 7 and a name of 16 bytes `A`,
none of them null. -/
def recordName16 : List UInt8 :=
  [0xEA, 0x32, 0x07, 0, 0x41, 0x41, 0x41, 0x41, 0x41, 0x41, 0x41, 0x41,
    0x41, 0x41, 0x41, 0x41, 0x41, 0x41, 0x41, 0x41]

/-- A query on a device that answers the probe with `RES_OK`, `CMD_INFO` with 32 bytes
and `CMD_READ` with the 20 bytes of `recordName16`; the two bytes in memory after
`fwinfo` are `B` and a null. -/
def envName16 : Env :=
  { dev := fun j =>
      if j = 1 then ⟨32, List.replicate 32 1⟩
      else if j = 2 then ⟨20, recordName16⟩
      else ⟨RES_OK, []⟩,
    fopen := none, blrest := [], fwrest := [0x42, 0] }

/-- A bootloader image file of 4096 bytes, the capacity of the bootloader target. -/
def env4096 : Env :=
  { dev := okDev, fopen := some ⟨List.replicate 4096 0, false⟩, blrest := [], fwrest := [] }

/-- The calls of a complete query after the probe exchange and before `close`
(lines 145-152). -/
def queryCalls : List Event :=
  [.sendval CMD_INFO, .recvdata, .sendval CMD_READ, .sendval 0, .sendval 4, .recvdata]

/-- The ways a run that has opened the connection can end: `Shape env opts filename e rest`
says that the process ends by `e` after the probe exchange and the further calls `rest`. -/
inductive Shape (env : Env) (opts : Nat) : Option String → Exit → List Event → Prop where
  | probe (filename : Option String) (msg : String) (res val : Int) :
      Shape env opts filename (.errx msg res val) []
  | noFile (name : String) : env.fopen = none → Shape env opts (some name) (.err name) []
  | failedRead (name : String) (f : FileStream) :
      env.fopen = some f → readSize opts f = 0 → f.error = true →
      Shape env opts (some name) (.err name) []
  | invalid (name : String) (f : FileStream) :
      env.fopen = some f → ¬ validLength opts (readSize opts f) →
      Shape env opts (some name) (.invalidImage name) []
  | queryInfo (msg : String) (res val : Int) :
      Shape env opts none (.errx msg res val) [.sendval CMD_INFO, .recvdata]
  | queryRead (msg : String) (res val : Int) :
      Shape env opts none (.errx msg res val) queryCalls
  | queryDone : Shape env opts none (.ret 0) (queryCalls ++ [.close])
  | fwAbort (name : String) (f : FileStream) (m : Nat) (msg : String) (res val : Int) :
      env.fopen = some f → validLength opts (readSize opts f) → flag opts opt_B = false →
      m < nchunks (readSize opts f) →
      Shape env opts (some name) (.errx msg res val)
        ((List.range (m + 1)).flatMap (fwCalls (readData opts f) (readSize opts f)))
  | fwDone (name : String) (f : FileStream) :
      env.fopen = some f → validLength opts (readSize opts f) → flag opts opt_B = false →
      Shape env opts (some name) (.ret 0)
        ((List.range (nchunks (readSize opts f))).flatMap
          (fwCalls (readData opts f) (readSize opts f)) ++ [.close])
  | blAbort (name : String) (f : FileStream) (m : Nat) (msg : String) (res val : Int) :
      env.fopen = some f → validLength opts (readSize opts f) → flag opts opt_B = true →
      m < nchunks (readSize opts f) →
      Shape env opts (some name) (.errx msg res val)
        ([.sendval CMD_UPDATE] ++
          (List.range (m + 1)).flatMap (blCalls (readData opts f) (readSize opts f)))
  | blAbortLast (name : String) (f : FileStream) (msg : String) (res val : Int) :
      env.fopen = some f → validLength opts (readSize opts f) → flag opts opt_B = true →
      Shape env opts (some name) (.errx msg res val)
        ([.sendval CMD_UPDATE] ++
          (List.range (nchunks (readSize opts f))).flatMap
            (blCalls (readData opts f) (readSize opts f)) ++ [.recvval])
  | blDone (name : String) (f : FileStream) :
      env.fopen = some f → validLength opts (readSize opts f) → flag opts opt_B = true →
      Shape env opts (some name) (.ret 0)
        ([.sendval CMD_UPDATE] ++
          (List.range (nchunks (readSize opts f))).flatMap
            (blCalls (readData opts f) (readSize opts f)) ++ [.recvval, .close])

/-- The payloads of the `senddata` calls of a trace, in the order sent. -/
def payloads (t : List Event) : List (List UInt8) :=
  t.filterMap (fun e => match e with
    | .senddata _ _ bytes => some bytes
    | _ => none)

/-- The offsets into `data` of the `senddata` calls of a trace, in the order sent. -/
def chunkOffsets (t : List Event) : List Int :=
  t.filterMap (fun e => match e with
    | .senddata off _ _ => some off
    | _ => none)

/-- The bytes of chunk `k` of the image: `data[1024k : 1024k + maxlen(1024k, size)]`. -/
def chunkBytes (data : List UInt8) (size : Int) (k : Nat) : List UInt8 :=
  (data.drop (1024 * (k : Int)).toNat).take (maxlen (1024 * (k : Int)) size).toNat

/-- The 8-byte image read without error, as a stream. -/
def file8 : FileStream := ⟨[1, 2, 3, 4, 5, 6, 7, 8], false⟩

/-- An image file of 6 bytes (not a multiple of 4) on a device that acknowledges
everything. -/
def envBad6 : Env := { env8 with fopen := some ⟨[1, 2, 3, 4, 5, 6], false⟩ }

/-- No image file: `fopen` returns `NULL`. -/
def envNoFile : Env := { env8 with fopen := none }

/-- What the protocol of the specification has outstanding on the connection between two
transport calls.  A command is sent with its arguments in a fixed order: `Probe` and
`Info` have none, `Read` has two integers (block number, length code), `Write` has one
integer (block number) and one chunk of data, `Update` has no integer and is followed by
chunks of data, each acknowledged, and one more acknowledgment. -/
inductive Pending where
  | start
  | idle
  | probeAck
  | infoData
  | readBlock
  | readLength
  | readData
  | writeBlock
  | writeData
  | writeAck
  | updateData
  | updateAck
  | updateIdle
  | closed
deriving DecidableEq

/-- One transport call of a strictly synchronous engine.  A command code (`Probe`,
`Info`, `Read`, `Write`, `Update`) is accepted only in `idle`, when no command is
outstanding; the integers sent after `Read` and `Write` are their arguments; every other
call in every other state is refused (`none`). -/
def Pending.step : Pending → Event → Option Pending
  | .start, .openserial => some .idle
  | .idle, .sendval c =>
    if c = CMD_PROBE then some .probeAck
    else if c = CMD_INFO then some .infoData
    else if c = CMD_READ then some .readBlock
    else if c = CMD_WRITE then some .writeBlock
    else if c = CMD_UPDATE then some .updateData
    else none
  | .idle, .close => some .closed
  | .probeAck, .recvval => some .idle
  | .infoData, .recvdata => some .idle
  | .readBlock, .sendval _ => some .readLength
  | .readLength, .sendval _ => some .readData
  | .readData, .recvdata => some .idle
  | .writeBlock, .sendval _ => some .writeData
  | .writeData, .senddata _ _ _ => some .writeAck
  | .writeAck, .recvval => some .idle
  | .updateData, .senddata _ _ _ => some .updateAck
  | .updateAck, .recvval => some .updateIdle
  | .updateIdle, .senddata _ _ _ => some .updateAck
  | .updateIdle, .recvval => some .idle
  | _, _ => none

/-- The state after a sequence of transport calls, `none` if one of them is refused. -/
def Pending.after : Pending → List Event → Option Pending
  | p, [] => some p
  | p, e :: t =>
    match p.step e with
    | some q => q.after t
    | none => none

/-- No send is waiting for its receive. -/
def Pending.quiet : Pending → Bool
  | .start => true
  | .idle => true
  | .updateIdle => true
  | .closed => true
  | _ => false

/-- The trace is strictly synchronous: every call is accepted in turn, so a command code
is only sent when no command is outstanding, and at the end no send is left without its
receive. -/
def synchronous (t : List Event) : Bool :=
  match Pending.start.after t with
  | some p => p.quiet
  | none => false

/-- A trace that sends `Info` and `Read` with its arguments before receiving anything. -/
def pipelinedQuery : List Event :=
  [.openserial, .sendval 0, .recvval, .sendval 1, .sendval 2, .sendval 0, .sendval 4,
    .recvdata, .recvdata, .close]

/-- A trace that sends two `Write` commands before receiving the acknowledgment of the
first. -/
def pipelinedWrites : List Event :=
  [.openserial, .sendval 0, .recvval, .sendval 3, .sendval 0, .senddata 0 4 [1, 2, 3, 4],
    .sendval 3, .sendval 1, .senddata 1024 4 [5, 6, 7, 8], .recvval, .recvval, .close]

/-- A trace that ends with a command sent and not answered. -/
def unansweredWrite : List Event :=
  [.openserial, .sendval 0, .recvval, .sendval 3, .sendval 0, .senddata 0 4 [1, 2, 3, 4]]

/-! ## Basic facts -/

@[simp] theorem bind_run {α β : Type} (x : Prog α) (f : α → Prog β) (s : State) :
    (x >>= f) s = match x s with
      | .cont a s1 => f a s1
      | .halt e s1 => .halt e s1 := rfl

@[simp] theorem pure_run {α : Type} (a : α) (s : State) :
    (pure a : Prog α) s = .cont a s := rfl

@[simp] theorem halt_run {α : Type} (e : Exit) (s : State) :
    (halt e : Prog α) s = .halt e s := rfl

@[simp] theorem State.after_nil (s : State) : s.after [] 0 [] = s := by
  cases s; simp [State.after]

theorem State.after_after (s : State) (e1 e2 : List Event) (n1 n2 : Nat)
    (o1 o2 : List Output) :
    (s.after e1 n1 o1).after e2 n2 o2 = s.after (e1 ++ e2) (n1 + n2) (o1 ++ o2) := by
  simp [State.after, Nat.add_assoc]

theorem land3 (n : Nat) : Int.land (n : Int) 3 = (n : Int) % 4 := by
  show ((n &&& 3 : Nat) : Int) = _
  have h : n &&& 3 = n % 4 := Nat.and_pow_two_sub_one_eq_mod n 2
  rw [h]; norm_cast

theorem lt_size_iff (size : Int) (k : Nat) : 1024 * (k : Int) < size ↔ k < nchunks size := by
  unfold nchunks; omega

theorem maxlen_eq_min (pos size : Int) : maxlen pos size = min 1024 (size - pos) := by
  unfold maxlen; simp only []; split <;> omega

theorem checkres_run (opts : Nat) (res val : Int) (msg : String) (s : State) :
    checkres opts res val msg s =
      if res = val ∨ flag opts opt_f = true then .cont () s
      else .halt (.errx msg res val) s := by
  unfold checkres; split <;> simp

theorem recvack_run (env : Env) (opts : Nat) (msg : String) (s : State) :
    recvack env opts msg s =
      if (env.dev s.nrecv).val = RES_OK ∨ flag opts opt_f = true then
        .cont () (s.after [.recvval] 1 [])
      else .halt (.errx msg (env.dev s.nrecv).val RES_OK) (s.after [.recvval] 1 []) := by
  simp only [recvack, bind_run, recvval, checkres_run, State.after, List.append_nil]

theorem fwLoop_done (env : Env) (opts : Nat) (data : List UInt8) (size : Int) (fuel : Nat)
    (pos : Int) (s : State) (h : ¬ pos < size) :
    fwLoop env opts data size fuel pos s = .cont () s := by
  unfold fwLoop; simp [h]

theorem fwLoop_step (env : Env) (opts : Nat) (data : List UInt8) (size : Int) (fuel k : Nat)
    (s : State) (h : k < nchunks size) :
    fwLoop env opts data size (fuel + 1) (1024 * (k : Int)) s =
      if (env.dev s.nrecv).val = RES_OK ∨ flag opts opt_f = true then
        fwLoop env opts data size fuel (1024 * ((k + 1 : Nat) : Int))
          (s.after (fwCalls data size k) 1 [progressLine size k])
      else .halt (.errx "Error writing data" (env.dev s.nrecv).val RES_OK)
          (s.after (fwCalls data size k) 1 [progressLine size k]) := by
  have h1 : 1024 * (k : Int) < size := (lt_size_iff size k).2 h
  have h2 : 1024 * (k : Int) + 1024 = 1024 * ((k + 1 : Nat) : Int) := by push_cast; ring
  rw [fwLoop]
  simp only [h1, if_true, bind_run, printf, sendval, senddata, emit, recvack_run, State.after,
    fwCalls, chunkCall, progressLine, List.append_assoc, List.singleton_append,
    List.cons_append, List.nil_append, List.append_nil, h2]
  by_cases hp : (env.dev s.nrecv).val = RES_OK ∨ flag opts opt_f = true
  · simp only [hp, if_true]
  · simp only [hp, if_false]

/-- The firmware loop entered at iteration `k` with `m` iterations to go, all of whose
checks pass, makes exactly these `m` iterations. -/
theorem fwLoop_ok (env : Env) (opts : Nat) (data : List UInt8) (size : Int) :
    ∀ (m k fuel : Nat) (s : State), k + m = nchunks size → m ≤ fuel →
      (∀ j, j < m → (env.dev (s.nrecv + j)).val = RES_OK ∨ flag opts opt_f = true) →
      fwLoop env opts data size fuel (1024 * (k : Int)) s =
        .cont () (s.after ((List.range' k m).flatMap (fwCalls data size)) m
          ((List.range' k m).map (progressLine size))) := by
  intro m
  induction m with
  | zero =>
    intro k fuel s hk _ _
    have h : ¬ 1024 * (k : Int) < size := by
      rw [lt_size_iff]; omega
    simp [fwLoop_done env opts data size fuel _ s h]
  | succ m ih =>
    intro k fuel s hk hf hp
    obtain ⟨fuel, rfl⟩ : ∃ f, fuel = f + 1 := ⟨fuel - 1, by omega⟩
    rw [fwLoop_step env opts data size fuel k s (by omega)]
    have h0 := hp 0 (by omega)
    rw [Nat.add_zero] at h0
    rw [if_pos h0, ih (k + 1) fuel _ (by omega) (by omega)]
    · rw [State.after_after, List.range'_succ, List.flatMap_cons, List.map_cons,
        Nat.add_comm 1 m]
      rfl
    · intro j hj
      have := hp (j + 1) (by omega)
      simpa [State.after, Nat.add_assoc, Nat.add_comm 1 j] using this

/-- The firmware loop entered at iteration `k` whose first `m` checks pass and whose next
check fails (ForceMode off) ends the process right after the receive of iteration
`k + m`. -/
theorem fwLoop_abort (env : Env) (opts : Nat) (data : List UInt8) (size : Int) :
    ∀ (m k fuel : Nat) (s : State), k + m < nchunks size → m < fuel →
      (∀ j, j < m → (env.dev (s.nrecv + j)).val = RES_OK ∨ flag opts opt_f = true) →
      ¬ ((env.dev (s.nrecv + m)).val = RES_OK ∨ flag opts opt_f = true) →
      fwLoop env opts data size fuel (1024 * (k : Int)) s =
        .halt (.errx "Error writing data" (env.dev (s.nrecv + m)).val RES_OK)
          (s.after ((List.range' k (m + 1)).flatMap (fwCalls data size)) (m + 1)
            ((List.range' k (m + 1)).map (progressLine size))) := by
  intro m
  induction m with
  | zero =>
    intro k fuel s hk hf _ hbad
    obtain ⟨fuel, rfl⟩ : ∃ f, fuel = f + 1 := ⟨fuel - 1, by omega⟩
    rw [fwLoop_step env opts data size fuel k s (by omega)]
    rw [Nat.add_zero] at hbad
    rw [if_neg hbad]
    simp [List.range'_succ]
  | succ m ih =>
    intro k fuel s hk hf hp hbad
    obtain ⟨fuel, rfl⟩ : ∃ f, fuel = f + 1 := ⟨fuel - 1, by omega⟩
    rw [fwLoop_step env opts data size fuel k s (by omega)]
    have h0 := hp 0 (by omega)
    rw [Nat.add_zero] at h0
    have e1 : (s.after (fwCalls data size k) 1 [progressLine size k]).nrecv + m
        = s.nrecv + (m + 1) := by
      simp [State.after]; omega
    rw [if_pos h0, ih (k + 1) fuel _ (by omega) (by omega)]
    · rw [State.after_after, e1, List.range'_succ k (m + 1), List.flatMap_cons, List.map_cons,
        Nat.add_comm 1 (m + 1)]
      rfl
    · intro j hj
      have := hp (j + 1) (by omega)
      simpa [State.after, Nat.add_assoc, Nat.add_comm 1 j] using this
    · rw [e1]; exact hbad

theorem blLoop_done (env : Env) (opts : Nat) (data : List UInt8) (size : Int) (fuel : Nat)
    (pos : Int) (s : State) (h : ¬ pos < size) :
    blLoop env opts data size fuel pos s = .cont () s := by
  unfold blLoop; simp [h]

theorem blLoop_step (env : Env) (opts : Nat) (data : List UInt8) (size : Int) (fuel k : Nat)
    (s : State) (h : k < nchunks size) :
    blLoop env opts data size (fuel + 1) (1024 * (k : Int)) s =
      if (env.dev s.nrecv).val = RES_OK ∨ flag opts opt_f = true then
        blLoop env opts data size fuel (1024 * ((k + 1 : Nat) : Int))
          (s.after (blCalls data size k) 1 [progressLine size k])
      else .halt (.errx "Error writing data" (env.dev s.nrecv).val RES_OK)
          (s.after (blCalls data size k) 1 [progressLine size k]) := by
  have h1 : 1024 * (k : Int) < size := (lt_size_iff size k).2 h
  have h2 : 1024 * (k : Int) + 1024 = 1024 * ((k + 1 : Nat) : Int) := by push_cast; ring
  rw [blLoop]
  simp only [h1, if_true, bind_run, printf, sendval, senddata, emit, recvack_run, State.after,
    blCalls, chunkCall, progressLine, List.append_assoc, List.singleton_append,
    List.cons_append, List.nil_append, List.append_nil, h2]
  by_cases hp : (env.dev s.nrecv).val = RES_OK ∨ flag opts opt_f = true
  · simp only [hp, if_true]
  · simp only [hp, if_false]

/-- The bootloader loop entered at iteration `k` with `m` iterations to go, all of whose
checks pass, makes exactly these `m` iterations. -/
theorem blLoop_ok (env : Env) (opts : Nat) (data : List UInt8) (size : Int) :
    ∀ (m k fuel : Nat) (s : State), k + m = nchunks size → m ≤ fuel →
      (∀ j, j < m → (env.dev (s.nrecv + j)).val = RES_OK ∨ flag opts opt_f = true) →
      blLoop env opts data size fuel (1024 * (k : Int)) s =
        .cont () (s.after ((List.range' k m).flatMap (blCalls data size)) m
          ((List.range' k m).map (progressLine size))) := by
  intro m
  induction m with
  | zero =>
    intro k fuel s hk _ _
    have h : ¬ 1024 * (k : Int) < size := by
      rw [lt_size_iff]; omega
    simp [blLoop_done env opts data size fuel _ s h]
  | succ m ih =>
    intro k fuel s hk hf hp
    obtain ⟨fuel, rfl⟩ : ∃ f, fuel = f + 1 := ⟨fuel - 1, by omega⟩
    rw [blLoop_step env opts data size fuel k s (by omega)]
    have h0 := hp 0 (by omega)
    rw [Nat.add_zero] at h0
    rw [if_pos h0, ih (k + 1) fuel _ (by omega) (by omega)]
    · rw [State.after_after, List.range'_succ, List.flatMap_cons, List.map_cons,
        Nat.add_comm 1 m]
      rfl
    · intro j hj
      have := hp (j + 1) (by omega)
      simpa [State.after, Nat.add_assoc, Nat.add_comm 1 j] using this

/-- The bootloader loop entered at iteration `k` whose first `m` checks pass and whose next
check fails (ForceMode off) ends the process right after the receive of iteration
`k + m`. -/
theorem blLoop_abort (env : Env) (opts : Nat) (data : List UInt8) (size : Int) :
    ∀ (m k fuel : Nat) (s : State), k + m < nchunks size → m < fuel →
      (∀ j, j < m → (env.dev (s.nrecv + j)).val = RES_OK ∨ flag opts opt_f = true) →
      ¬ ((env.dev (s.nrecv + m)).val = RES_OK ∨ flag opts opt_f = true) →
      blLoop env opts data size fuel (1024 * (k : Int)) s =
        .halt (.errx "Error writing data" (env.dev (s.nrecv + m)).val RES_OK)
          (s.after ((List.range' k (m + 1)).flatMap (blCalls data size)) (m + 1)
            ((List.range' k (m + 1)).map (progressLine size))) := by
  intro m
  induction m with
  | zero =>
    intro k fuel s hk hf _ hbad
    obtain ⟨fuel, rfl⟩ : ∃ f, fuel = f + 1 := ⟨fuel - 1, by omega⟩
    rw [blLoop_step env opts data size fuel k s (by omega)]
    rw [Nat.add_zero] at hbad
    rw [if_neg hbad]
    simp [List.range'_succ]
  | succ m ih =>
    intro k fuel s hk hf hp hbad
    obtain ⟨fuel, rfl⟩ : ∃ f, fuel = f + 1 := ⟨fuel - 1, by omega⟩
    rw [blLoop_step env opts data size fuel k s (by omega)]
    have h0 := hp 0 (by omega)
    rw [Nat.add_zero] at h0
    have e1 : (s.after (blCalls data size k) 1 [progressLine size k]).nrecv + m
        = s.nrecv + (m + 1) := by
      simp [State.after]; omega
    rw [if_pos h0, ih (k + 1) fuel _ (by omega) (by omega)]
    · rw [State.after_after, e1, List.range'_succ k (m + 1), List.flatMap_cons, List.map_cons,
        Nat.add_comm 1 (m + 1)]
      rfl
    · intro j hj
      have := hp (j + 1) (by omega)
      simpa [State.after, Nat.add_assoc, Nat.add_comm 1 j] using this
    · rw [e1]; exact hbad

theorem loadImage_none (env : Env) (opts : Nat) (name : String) (s : State)
    (h : env.fopen = none) : loadImage env opts name s = .halt (.err name) s := by
  simp [loadImage, h]

theorem loadImage_some (env : Env) (opts : Nat) (name : String) (s : State) (f : FileStream)
    (h : env.fopen = some f) :
    loadImage env opts name s =
      if readSize opts f = 0 ∧ f.error = true then .halt (.err name) s
      else if validLength opts (readSize opts f) then
        .cont (readData opts f, readSize opts f) s
      else .halt (.invalidImage name) s := by
  have hcap : capacity opts = 4096 ∨ capacity opts = 26624 := by
    unfold capacity; split <;> simp
  have hle : readSize opts f ≤ capacity opts := by
    unfold readSize readData
    have := List.length_take_le (capacity opts).toNat f.bytes
    omega
  have h3 : Int.land (readSize opts f) 3 = readSize opts f % 4 := land3 _
  simp only [loadImage, h]
  show (if readSize opts f = 0 ∧ f.error = true then (halt (Exit.err name) : Prog _)
    else if readSize opts f = 0 ∨ readSize opts f = capacity opts ∨
      Int.land (readSize opts f) 3 ≠ 0 then halt (Exit.invalidImage name)
    else pure (readData opts f, readSize opts f)) s = _
  rw [h3]
  by_cases h1 : readSize opts f = 0 ∧ f.error = true
  · rw [if_pos h1, if_pos h1]; rfl
  · rw [if_neg h1, if_neg h1]
    have hsz : 0 ≤ readSize opts f := by unfold readSize; omega
    by_cases hv : validLength opts (readSize opts f)
    · rw [if_pos hv, if_neg]
      · rfl
      · unfold validLength at hv; omega
    · rw [if_neg hv, if_pos]
      · rfl
      · unfold validLength at hv; omega

theorem run_version (env : Env) (opts : Nat) (filename : Option String)
    (hV : flag opts opt_V = true) :
    run env opts filename = .halt (.ret 0) (State.init.after [] 0 [.version]) := by
  simp [run, main, hV, printf, State.after, State.init]

theorem run_probe_abort (env : Env) (opts : Nat) (filename : Option String)
    (hV : flag opts opt_V = false)
    (h0 : ¬ ((env.dev 0).val = RES_OK ∨ flag opts opt_f = true)) :
    run env opts filename = .halt (.errx "Connection failed" (env.dev 0).val RES_OK)
      (State.init.after probeCalls 1 [.connecting]) := by
  simp [run, main, hV, printf, State.after, State.init, openserial, sendval, emit,
    recvack_run, h0, probeCalls]

theorem run_fw_ok (env : Env) (opts : Nat) (name : String) (f : FileStream)
    (hV : flag opts opt_V = false) (hB : flag opts opt_B = false)
    (hopen : env.fopen = some f) (hvalid : validLength opts (readSize opts f))
    (hp : ∀ j, j ≤ nchunks (readSize opts f) →
      (env.dev j).val = RES_OK ∨ flag opts opt_f = true) :
    run env opts (some name) = .halt (.ret 0)
      (State.init.after
        (probeCalls ++ (List.range (nchunks (readSize opts f))).flatMap
          (fwCalls (readData opts f) (readSize opts f)) ++ [.close])
        (nchunks (readSize opts f) + 1)
        ([.connecting, .updatingFirmware] ++
          (List.range (nchunks (readSize opts f))).map (progressLine (readSize opts f)) ++
          [.done])) := by
  have h0 := hp 0 (by omega)
  have hne : ¬ (readSize opts f = 0 ∧ f.error = true) := by
    unfold validLength at hvalid; omega
  have hloop := fwLoop_ok env opts (readData opts f) (readSize opts f)
    (nchunks (readSize opts f)) 0 (readSize opts f).toNat
    (State.init.after probeCalls 1 [.connecting, .updatingFirmware]) (by omega)
    (by unfold nchunks; unfold validLength at hvalid; omega)
    (by
      intro j hj
      have := hp (1 + j) (by omega)
      simpa [State.after, State.init] using this)
  simp only [Nat.cast_zero, mul_zero] at hloop
  simp [run, main, hV, hB, printf, State.after, State.init, openserial, sendval, emit,
    recvack_run, h0, probeCalls, loadImage_some env opts name _ f hopen, hne, hvalid, close]
  simp [State.after, State.init, probeCalls] at hloop
  rw [hloop]
  simp [List.range_eq_range', Nat.add_comm]

theorem run_fw_abort (env : Env) (opts : Nat) (name : String) (f : FileStream) (m : Nat)
    (hV : flag opts opt_V = false) (hB : flag opts opt_B = false)
    (hopen : env.fopen = some f) (hvalid : validLength opts (readSize opts f))
    (hm : m < nchunks (readSize opts f))
    (hp : ∀ j, j ≤ m → (env.dev j).val = RES_OK ∨ flag opts opt_f = true)
    (hbad : ¬ ((env.dev (m + 1)).val = RES_OK ∨ flag opts opt_f = true)) :
    run env opts (some name) =
      .halt (.errx "Error writing data" (env.dev (m + 1)).val RES_OK)
        (State.init.after
          (probeCalls ++ (List.range (m + 1)).flatMap
            (fwCalls (readData opts f) (readSize opts f)))
          (m + 2)
          ([.connecting, .updatingFirmware] ++
            (List.range (m + 1)).map (progressLine (readSize opts f)))) := by
  have h0 := hp 0 (by omega)
  have hne : ¬ (readSize opts f = 0 ∧ f.error = true) := by
    unfold validLength at hvalid; omega
  have hloop := fwLoop_abort env opts (readData opts f) (readSize opts f)
    m 0 (readSize opts f).toNat
    (State.init.after probeCalls 1 [.connecting, .updatingFirmware]) (by omega)
    (by unfold nchunks at hm; unfold validLength at hvalid; omega)
    (by
      intro j hj
      have := hp (1 + j) (by omega)
      simpa [State.after, State.init] using this)
    (by simpa [State.after, State.init, Nat.add_comm] using hbad)
  simp only [Nat.cast_zero, mul_zero] at hloop
  simp [run, main, hV, hB, printf, State.after, State.init, openserial, sendval, emit,
    recvack_run, h0, probeCalls, loadImage_some env opts name _ f hopen, hne, hvalid, close]
  simp [State.after, State.init, probeCalls] at hloop
  rw [hloop]
  simp [List.range_eq_range', Nat.add_comm, Nat.add_left_comm]

theorem run_bl_ok (env : Env) (opts : Nat) (name : String) (f : FileStream)
    (hV : flag opts opt_V = false) (hB : flag opts opt_B = true)
    (hopen : env.fopen = some f) (hvalid : validLength opts (readSize opts f))
    (hp : ∀ j, j ≤ nchunks (readSize opts f) + 1 →
      (env.dev j).val = RES_OK ∨ flag opts opt_f = true) :
    run env opts (some name) = .halt (.ret 0)
      (State.init.after
        (probeCalls ++ [.sendval CMD_UPDATE] ++
          (List.range (nchunks (readSize opts f))).flatMap
            (blCalls (readData opts f) (readSize opts f)) ++ [.recvval, .close])
        (nchunks (readSize opts f) + 2)
        ([.connecting, .updatingBootloader] ++
          (List.range (nchunks (readSize opts f))).map (progressLine (readSize opts f)) ++
          [.done])) := by
  have h0 := hp 0 (by omega)
  have hlast := hp (nchunks (readSize opts f) + 1) (by omega)
  have hne : ¬ (readSize opts f = 0 ∧ f.error = true) := by
    unfold validLength at hvalid; omega
  have hloop := blLoop_ok env opts (readData opts f) (readSize opts f)
    (nchunks (readSize opts f)) 0 (readSize opts f).toNat
    (State.init.after (probeCalls ++ [.sendval CMD_UPDATE]) 1
      [.connecting, .updatingBootloader]) (by omega)
    (by unfold nchunks; unfold validLength at hvalid; omega)
    (by
      intro j hj
      have := hp (1 + j) (by omega)
      simpa [State.after, State.init] using this)
  simp only [Nat.cast_zero, mul_zero] at hloop
  simp [run, main, hV, hB, printf, State.after, State.init, openserial, sendval, emit,
    recvack_run, h0, probeCalls, loadImage_some env opts name _ f hopen, hne, hvalid, close]
  simp [State.after, State.init, probeCalls] at hloop
  rw [hloop]
  simp [List.range_eq_range', Nat.add_comm, Nat.add_left_comm, hlast]

theorem run_bl_abort (env : Env) (opts : Nat) (name : String) (f : FileStream) (m : Nat)
    (hV : flag opts opt_V = false) (hB : flag opts opt_B = true)
    (hopen : env.fopen = some f) (hvalid : validLength opts (readSize opts f))
    (hm : m < nchunks (readSize opts f))
    (hp : ∀ j, j ≤ m → (env.dev j).val = RES_OK ∨ flag opts opt_f = true)
    (hbad : ¬ ((env.dev (m + 1)).val = RES_OK ∨ flag opts opt_f = true)) :
    run env opts (some name) =
      .halt (.errx "Error writing data" (env.dev (m + 1)).val RES_OK)
        (State.init.after
          (probeCalls ++ [.sendval CMD_UPDATE] ++ (List.range (m + 1)).flatMap
            (blCalls (readData opts f) (readSize opts f)))
          (m + 2)
          ([.connecting, .updatingBootloader] ++
            (List.range (m + 1)).map (progressLine (readSize opts f)))) := by
  have h0 := hp 0 (by omega)
  have hne : ¬ (readSize opts f = 0 ∧ f.error = true) := by
    unfold validLength at hvalid; omega
  have hloop := blLoop_abort env opts (readData opts f) (readSize opts f)
    m 0 (readSize opts f).toNat
    (State.init.after (probeCalls ++ [.sendval CMD_UPDATE]) 1
      [.connecting, .updatingBootloader]) (by omega)
    (by unfold nchunks at hm; unfold validLength at hvalid; omega)
    (by
      intro j hj
      have := hp (1 + j) (by omega)
      simpa [State.after, State.init] using this)
    (by simpa [State.after, State.init, Nat.add_comm] using hbad)
  simp only [Nat.cast_zero, mul_zero] at hloop
  simp [run, main, hV, hB, printf, State.after, State.init, openserial, sendval, emit,
    recvack_run, h0, probeCalls, loadImage_some env opts name _ f hopen, hne, hvalid, close]
  simp [State.after, State.init, probeCalls] at hloop
  rw [hloop]
  simp [List.range_eq_range', Nat.add_comm, Nat.add_left_comm]

theorem run_bl_abort_last (env : Env) (opts : Nat) (name : String) (f : FileStream)
    (hV : flag opts opt_V = false) (hB : flag opts opt_B = true)
    (hopen : env.fopen = some f) (hvalid : validLength opts (readSize opts f))
    (hp : ∀ j, j ≤ nchunks (readSize opts f) →
      (env.dev j).val = RES_OK ∨ flag opts opt_f = true)
    (hbad : ¬ ((env.dev (nchunks (readSize opts f) + 1)).val = RES_OK ∨
      flag opts opt_f = true)) :
    run env opts (some name) =
      .halt (.errx "Update failed" (env.dev (nchunks (readSize opts f) + 1)).val RES_OK)
        (State.init.after
          (probeCalls ++ [.sendval CMD_UPDATE] ++
            (List.range (nchunks (readSize opts f))).flatMap
              (blCalls (readData opts f) (readSize opts f)) ++ [.recvval])
          (nchunks (readSize opts f) + 2)
          ([.connecting, .updatingBootloader] ++
            (List.range (nchunks (readSize opts f))).map
              (progressLine (readSize opts f)))) := by
  have h0 := hp 0 (by omega)
  have hne : ¬ (readSize opts f = 0 ∧ f.error = true) := by
    unfold validLength at hvalid; omega
  have hloop := blLoop_ok env opts (readData opts f) (readSize opts f)
    (nchunks (readSize opts f)) 0 (readSize opts f).toNat
    (State.init.after (probeCalls ++ [.sendval CMD_UPDATE]) 1
      [.connecting, .updatingBootloader]) (by omega)
    (by unfold nchunks; unfold validLength at hvalid; omega)
    (by
      intro j hj
      have := hp (1 + j) (by omega)
      simpa [State.after, State.init] using this)
  simp only [Nat.cast_zero, mul_zero] at hloop
  simp [run, main, hV, hB, printf, State.after, State.init, openserial, sendval, emit,
    recvack_run, h0, probeCalls, loadImage_some env opts name _ f hopen, hne, hvalid, close]
  simp [State.after, State.init, probeCalls] at hloop
  rw [hloop]
  simp [List.range_eq_range', Nat.add_comm, Nat.add_left_comm, hbad]

/-- A run that passes the probe and is given a file that cannot be opened or is
rejected ends right after the probe exchange. -/
theorem run_rejected (env : Env) (opts : Nat) (name : String)
    (hV : flag opts opt_V = false)
    (h0 : (env.dev 0).val = RES_OK ∨ flag opts opt_f = true)
    (hrej : ∀ f, env.fopen = some f → ¬ validLength opts (readSize opts f)) :
    run env opts (some name) =
      .halt (match env.fopen with
          | none => .err name
          | some f => if readSize opts f = 0 ∧ f.error = true then .err name
              else .invalidImage name)
        (State.init.after probeCalls 1 [.connecting]) := by
  cases hopen : env.fopen with
  | none =>
    simp [run, main, hV, printf, State.after, State.init, openserial, sendval, emit,
      recvack_run, h0, probeCalls, loadImage_none env opts name _ hopen]
  | some f =>
    have hv := hrej f hopen
    by_cases hne : readSize opts f = 0 ∧ f.error = true
    · simp [run, main, hV, printf, State.after, State.init, openserial, sendval, emit,
        recvack_run, h0, probeCalls, loadImage_some env opts name _ f hopen, hne]
    · simp [run, main, hV, printf, State.after, State.init, openserial, sendval, emit,
        recvack_run, h0, probeCalls, loadImage_some env opts name _ f hopen, hne, hv]

/-- The run of a query (no filename) once the probe check passes. -/
theorem run_query (env : Env) (opts : Nat)
    (hV : flag opts opt_V = false)
    (h0 : (env.dev 0).val = RES_OK ∨ flag opts opt_f = true) :
    run env opts none =
      if (env.dev 1).val = 32 ∨ flag opts opt_f = true then
        if (env.dev 2).val = 20 ∨ flag opts opt_f = true then
          .halt (.ret 0) (State.init.after
            (probeCalls ++ [.sendval CMD_INFO, .recvdata, .sendval CMD_READ, .sendval 0,
              .sendval 4, .recvdata, .close]) 3
            [.connecting, .fetching,
              .blRevision (((env.dev 1).data ++ env.blrest).getD 0 0).toNat,
              printFwInfo ((env.dev 2).data ++ env.fwrest)])
        else
          .halt (.errx "Error reading data" (env.dev 2).val 20) (State.init.after
            (probeCalls ++ [.sendval CMD_INFO, .recvdata, .sendval CMD_READ, .sendval 0,
              .sendval 4, .recvdata]) 3
            [.connecting, .fetching,
              .blRevision (((env.dev 1).data ++ env.blrest).getD 0 0).toNat])
      else
        .halt (.errx "Error reading data" (env.dev 1).val 32) (State.init.after
          (probeCalls ++ [.sendval CMD_INFO, .recvdata]) 2 [.connecting, .fetching]) := by
  by_cases h1 : (env.dev 1).val = 32 ∨ flag opts opt_f = true
  · by_cases h2 : (env.dev 2).val = 20 ∨ flag opts opt_f = true
    · simp [run, main, hV, printf, State.after, State.init, openserial, sendval, emit,
        recvack_run, h0, probeCalls, recvdata, checkres_run, h1, h2, close]
    · simp [run, main, hV, printf, State.after, State.init, openserial, sendval, emit,
        recvack_run, h0, probeCalls, recvdata, checkres_run, h1, h2, close]
  · simp [run, main, hV, printf, State.after, State.init, openserial, sendval, emit,
      recvack_run, h0, probeCalls, recvdata, checkres_run, h1, close]

/-! ## Chunk arithmetic -/

theorem chunkLens_append (t1 t2 : List Event) :
    chunkLens (t1 ++ t2) = chunkLens t1 ++ chunkLens t2 := by
  simp [chunkLens, List.filterMap_append]

theorem chunkLens_fwCalls (data : List UInt8) (size : Int) (k m : Nat) :
    chunkLens ((List.range' k m).flatMap (fwCalls data size)) =
      (List.range' k m).map (fun (i : Nat) => maxlen (1024 * (i : Int)) size) := by
  induction m generalizing k with
  | zero => simp [chunkLens]
  | succ m ih =>
    rw [List.range'_succ, List.flatMap_cons, chunkLens_append, ih, List.map_cons]
    simp [chunkLens, fwCalls, chunkCall]

theorem chunkLens_blCalls (data : List UInt8) (size : Int) (k m : Nat) :
    chunkLens ((List.range' k m).flatMap (blCalls data size)) =
      (List.range' k m).map (fun (i : Nat) => maxlen (1024 * (i : Int)) size) := by
  induction m generalizing k with
  | zero => simp [chunkLens]
  | succ m ih =>
    rw [List.range'_succ, List.flatMap_cons, chunkLens_append, ih, List.map_cons]
    simp [chunkLens, blCalls, chunkCall]

theorem sum_maxlen (size : Int) :
    ∀ (m k : Nat), k + m = nchunks size →
      ((List.range' k m).map (fun (i : Nat) => maxlen (1024 * (i : Int)) size)).sum =
        max 0 (size - 1024 * (k : Int)) := by
  intro m
  induction m with
  | zero =>
    intro k hk
    have : ¬ 1024 * (k : Int) < size := by rw [lt_size_iff]; omega
    simp only [List.range'_zero, List.map_nil, List.sum_nil]
    omega
  | succ m ih =>
    intro k hk
    have h1 : 1024 * (k : Int) < size := by rw [lt_size_iff]; omega
    rw [List.range'_succ, List.map_cons, List.sum_cons, ih (k + 1) (by omega), maxlen_eq_min]
    push_cast
    omega

/-! ## The shape of a firmware update -/

theorem first_failure (P : Nat → Prop) (N : Nat) :
    (∀ j, j ≤ N → P j) ∨ ∃ m, m ≤ N ∧ (∀ j, j < m → P j) ∧ ¬ P m := by
  induction N with
  | zero =>
    by_cases h : P 0
    · left; intro j hj
      have : j = 0 := by omega
      rw [this]; exact h
    · right; exact ⟨0, le_refl _, fun j hj => absurd hj (Nat.not_lt_zero j), h⟩
  | succ N ih =>
    rcases ih with h | ⟨m, hm, hlt, hbad⟩
    · by_cases h1 : P (N + 1)
      · left; intro j hj
        rcases Nat.lt_or_ge j (N + 1) with hj1 | hj1
        · exact h j (by omega)
        · have : j = N + 1 := by omega
          rw [this]; exact h1
      · right; exact ⟨N + 1, le_refl _, fun j hj => h j (by omega), h1⟩
    · right; exact ⟨m, by omega, hlt, hbad⟩

theorem writeExchanges_fwCalls (data : List UInt8) (size : Int) (k : Nat) (t : List Event) :
    writeExchanges (fwCalls data size k ++ t) =
      (Int.tdiv (1024 * (k : Int)) 1024, 1024 * (k : Int)) :: writeExchanges t := by
  simp [fwCalls, chunkCall, writeExchanges]

theorem writeExchanges_probeCalls (t : List Event) :
    writeExchanges (probeCalls ++ t) = writeExchanges t := by
  simp [probeCalls, writeExchanges]

theorem writeExchanges_flatMap (data : List UInt8) (size : Int) (t : List Event) :
    ∀ (m k : Nat), writeExchanges ((List.range' k m).flatMap (fwCalls data size) ++ t) =
      (List.range' k m).map (fun (i : Nat) => (Int.tdiv (1024 * (i : Int)) 1024, 1024 * (i : Int)))
        ++ writeExchanges t := by
  intro m
  induction m with
  | zero => intro k; simp
  | succ m ih =>
    intro k
    rw [List.range'_succ, List.flatMap_cons, List.append_assoc, writeExchanges_fwCalls,
      ih (k + 1), List.map_cons, List.cons_append]

/-- The transport trace of every firmware update of an accepted image, whatever the
device answers: the probe exchange, then the Write exchanges of the blocks `0 .. m-1`
for some `m` up to the number of chunks, then `close` if the run went to its end. -/
theorem run_fw_trace (env : Env) (opts : Nat) (name : String) (f : FileStream)
    (hV : flag opts opt_V = false) (hB : flag opts opt_B = false)
    (hopen : env.fopen = some f) (hvalid : validLength opts (readSize opts f)) :
    ∃ (m : Nat) (tail : List Event), m ≤ nchunks (readSize opts f) ∧
      (tail = [] ∨ tail = [.close]) ∧
      (run env opts (some name)).state.trace =
        probeCalls ++ (List.range m).flatMap (fwCalls (readData opts f) (readSize opts f))
          ++ tail ∧
      ((∀ j, j ≤ nchunks (readSize opts f) →
          (env.dev j).val = RES_OK ∨ flag opts opt_f = true) →
        m = nchunks (readSize opts f) ∧ tail = [.close]) := by
  rcases first_failure (fun j => (env.dev j).val = RES_OK ∨ flag opts opt_f = true)
    (nchunks (readSize opts f)) with h | ⟨m, hm, hlt, hbad⟩
  · refine ⟨nchunks (readSize opts f), [.close], le_refl _, Or.inr rfl, ?_, fun _ => ⟨rfl, rfl⟩⟩
    rw [run_fw_ok env opts name f hV hB hopen hvalid h]
    simp [Res.state, State.after, State.init]
  · cases m with
    | zero =>
      refine ⟨0, [], Nat.zero_le _, Or.inl rfl, ?_, fun h => absurd (h 0 (Nat.zero_le _)) hbad⟩
      rw [run_probe_abort env opts _ hV hbad]
      simp [Res.state, State.after, State.init]
    | succ m =>
      refine ⟨m + 1, [], hm, Or.inl rfl, ?_, fun h => absurd (h (m + 1) hm) hbad⟩
      rw [run_fw_abort env opts name f m hV hB hopen hvalid (by omega)
        (fun j hj => hlt j (by omega)) hbad]
      simp [Res.state, State.after, State.init]

theorem fwCalls_eq_spec (data : List UInt8) (size : Int) :
    fwCalls data size = specWriteExchange data size := by
  funext k
  have h : (1024 * (k : Int)).toNat = 1024 * k := by omega
  simp only [fwCalls, chunkCall, specWriteExchange, maxlen_eq_min, h, CMD_WRITE]
  rw [Int.mul_tdiv_cancel_left _ (by decide)]

theorem blCalls_eq_spec (data : List UInt8) (size : Int) :
    blCalls data size = specChunkExchange data size := by
  funext k
  have h : (1024 * (k : Int)).toNat = 1024 * k := by omega
  simp only [blCalls, chunkCall, specChunkExchange, maxlen_eq_min, h]

theorem countP_isRecv_spec (image : List UInt8) (L : Int) (n : Nat) :
    ((List.range n).flatMap (specChunkExchange image L)).countP Event.isRecv = n := by
  induction n with
  | zero => simp
  | succ n ih =>
    rw [List.range_succ, List.flatMap_append, List.countP_append, ih]
    simp [specChunkExchange, Event.isRecv, List.countP_cons]

theorem nchunks_ceil (L : Int) (hL : 0 < L) :
    1024 * (nchunks L : Int) - 1024 < L ∧ L ≤ 1024 * (nchunks L : Int) := by
  unfold nchunks; omega

/-! ## Runs that differ in the ForceMode flag or in the device -/

theorem capacity_congr (opts opts2 : Nat) (hB : flag opts2 opt_B = flag opts opt_B) :
    capacity opts2 = capacity opts := by
  unfold capacity; rw [hB]

theorem readData_congr (opts opts2 : Nat) (f : FileStream)
    (hB : flag opts2 opt_B = flag opts opt_B) : readData opts2 f = readData opts f := by
  unfold readData; rw [capacity_congr opts opts2 hB]

theorem readSize_congr (opts opts2 : Nat) (f : FileStream)
    (hB : flag opts2 opt_B = flag opts opt_B) : readSize opts2 f = readSize opts f := by
  unfold readSize; rw [readData_congr opts opts2 f hB]

theorem validLength_congr (opts opts2 : Nat) (n : Int)
    (hB : flag opts2 opt_B = flag opts opt_B) : validLength opts2 n ↔ validLength opts n := by
  unfold validLength; rw [capacity_congr opts opts2 hB]

theorem expected_some (name : String) (j : Nat) : expected (some name) j = RES_OK := by
  unfold expected; rfl

/-- The complete run: a run all of whose checks pass (every reply is the expected one,
or ForceMode is on) and whose image, if there is one, is accepted.  It exits 0, and its
transport trace does not depend on the device, on ForceMode or on the data received. -/
theorem run_complete (env : Env) (opts : Nat) (filename : Option String)
    (himg : ∀ name, filename = some name →
      ∃ f, env.fopen = some f ∧ validLength opts (readSize opts f))
    (hp : ∀ j, passes env opts filename j) :
    (run env opts filename).exit? = some (.ret 0) ∧
    (run env opts filename).state.nrecv =
      (if flag opts opt_V = true then 0
      else match filename with
        | none => 3
        | some _ =>
          match env.fopen with
          | none => 0
          | some f =>
            if flag opts opt_B = true then nchunks (readSize opts f) + 2
            else nchunks (readSize opts f) + 1) ∧
    (run env opts filename).state.trace =
      if flag opts opt_V = true then []
      else match filename with
        | none => probeCalls ++ [.sendval CMD_INFO, .recvdata, .sendval CMD_READ,
            .sendval 0, .sendval 4, .recvdata, .close]
        | some _ =>
          match env.fopen with
          | none => []
          | some f =>
            if flag opts opt_B = true then
              probeCalls ++ [.sendval CMD_UPDATE] ++
                (List.range (nchunks (readSize opts f))).flatMap
                  (blCalls (readData opts f) (readSize opts f)) ++ [.recvval, .close]
            else
              probeCalls ++ (List.range (nchunks (readSize opts f))).flatMap
                (fwCalls (readData opts f) (readSize opts f)) ++ [.close] := by
  cases hV : flag opts opt_V with
  | true =>
    rw [run_version env opts filename hV]
    simp [Res.exit?, Res.state, State.after, State.init]
  | false =>
    cases filename with
    | none =>
      have h0 : (env.dev 0).val = RES_OK ∨ flag opts opt_f = true := hp 0
      have h1 : (env.dev 1).val = 32 ∨ flag opts opt_f = true := hp 1
      have h2 : (env.dev 2).val = 20 ∨ flag opts opt_f = true := hp 2
      rw [run_query env opts hV h0, if_pos h1, if_pos h2]
      simp [Res.exit?, Res.state, State.after, State.init]
    | some name =>
      obtain ⟨f, hopen, hvalid⟩ := himg name rfl
      have hp2 : ∀ j, (env.dev j).val = RES_OK ∨ flag opts opt_f = true := by
        intro j
        have := hp j
        unfold passes at this
        rwa [expected_some] at this
      cases hB : flag opts opt_B with
      | true =>
        rw [run_bl_ok env opts name f hV hB hopen hvalid (fun j _ => hp2 j)]
        simp [Res.exit?, Res.state, State.after, State.init, hopen]
      | false =>
        rw [run_fw_ok env opts name f hV hB hopen hvalid (fun j _ => hp2 j)]
        simp [Res.exit?, Res.state, State.after, State.init, hopen]

/-! ## Runs that end at a failed check -/

theorem flatMap_range_split {α : Type} (g : Nat → List α) (m n : Nat) (h : m ≤ n) :
    (List.range n).flatMap g =
      (List.range m).flatMap g ++ (List.range' m (n - m)).flatMap g := by
  rw [← List.flatMap_append, List.range_eq_range', List.range_eq_range']
  have := List.range'_append 0 m (n - m) 1
  simp only [Nat.zero_add, Nat.one_mul] at this
  rw [this]
  congr 2
  omega

theorem fwCalls_range_succ (data : List UInt8) (size : Int) (m : Nat) :
    (List.range (m + 1)).flatMap (fwCalls data size) =
      ((List.range m).flatMap (fwCalls data size) ++
        [.sendval CMD_WRITE, .sendval (Int.tdiv (1024 * (m : Int)) 1024),
          chunkCall data size m]) ++ [.recvval] := by
  rw [List.range_succ, List.flatMap_append]
  simp [fwCalls]

theorem blCalls_range_succ (data : List UInt8) (size : Int) (m : Nat) :
    (List.range (m + 1)).flatMap (blCalls data size) =
      ((List.range m).flatMap (blCalls data size) ++ [chunkCall data size m]) ++
        [.recvval] := by
  rw [List.range_succ, List.flatMap_append]
  simp [blCalls]

theorem countP_isRecv_fwCalls (data : List UInt8) (size : Int) (n : Nat) :
    ((List.range n).flatMap (fwCalls data size)).countP Event.isRecv = n := by
  induction n with
  | zero => simp
  | succ n ih =>
    rw [List.range_succ, List.flatMap_append, List.countP_append, ih]
    simp [fwCalls, chunkCall, Event.isRecv, List.countP_cons]

theorem countP_isRecv_blCalls (data : List UInt8) (size : Int) (n : Nat) :
    ((List.range n).flatMap (blCalls data size)).countP Event.isRecv = n := by
  induction n with
  | zero => simp
  | succ n ih =>
    rw [List.range_succ, List.flatMap_append, List.countP_append, ih]
    simp [blCalls, chunkCall, Event.isRecv, List.countP_cons]

/-- What is known of a run that ended at the check of its `k`-th receive `ev`, after the
calls `t0`, when the complete run goes on with `t1`. -/
theorem abort_shape (r : Res Unit) (msg : String) (v e : Int) (tr t0 t1 full : List Event)
    (ev : Event) (k : Nat) (o : List Output)
    (hr : r = .halt (.errx msg v e) (State.init.after tr (k + 1) o))
    (htr : tr = t0 ++ [ev])
    (hev : ev.isRecv = true) (hcount : t0.countP Event.isRecv = k)
    (hfull : full = tr ++ t1) :
    (∃ msg', r.exit? = some (.errx msg' v e)) ∧
    r.exit?.bind Exit.status = some 1 ∧
    r.state.nrecv = k + 1 ∧
    r.state.trace.countP Event.isRecv = k + 1 ∧
    (∃ e', r.state.trace.getLast? = some e' ∧ e'.isRecv = true) ∧
    r.state.trace <+: full := by
  subst hr
  subst hfull
  subst htr
  refine ⟨⟨msg, rfl⟩, rfl, ?_, ?_, ⟨ev, ?_, hev⟩, ?_⟩
  · simp [Res.state, State.after, State.init]
  · simp [Res.state, State.after, State.init, List.countP_append, hcount, List.countP_cons,
      hev]
  · simp [Res.state, State.after, State.init]
  · simp only [Res.state, State.after, State.init, List.nil_append]
    exact List.prefix_append _ _

theorem expected_zero (filename : Option String) : expected filename 0 = RES_OK := by
  cases filename <;> rfl

/-- With ForceMode on, the transport trace starts with the probe exchange. -/
theorem forced_trace_probe (env : Env) (opts : Nat) (filename : Option String)
    (hV : flag opts opt_V = false) (hF : flag opts opt_f = true) :
    ∃ t1, (run env opts filename).state.trace = probeCalls ++ t1 := by
  by_cases himg : ∀ name, filename = some name →
      ∃ f, env.fopen = some f ∧ validLength opts (readSize opts f)
  · have h := (run_complete env opts filename himg (fun j => Or.inr hF)).2.2
    rw [h, hV]
    cases filename with
    | none => exact ⟨_, rfl⟩
    | some name =>
      obtain ⟨f, hopen, _⟩ := himg name rfl
      rw [hopen]
      cases hB : flag opts opt_B with
      | true =>
        refine ⟨[.sendval CMD_UPDATE] ++ ((List.range (nchunks (readSize opts f))).flatMap
          (blCalls (readData opts f) (readSize opts f)) ++ [.recvval, .close]), ?_⟩
        simp only [Bool.false_eq_true, if_true, if_false, List.append_assoc]
      | false =>
        refine ⟨(List.range (nchunks (readSize opts f))).flatMap
          (fwCalls (readData opts f) (readSize opts f)) ++ [.close], ?_⟩
        simp only [Bool.false_eq_true, if_false, List.append_assoc]
  · cases filename with
    | none => exact absurd (fun name hn => Option.noConfusion hn) himg
    | some name =>
      have hrej : ∀ f, env.fopen = some f → ¬ validLength opts (readSize opts f) := by
        intro f hopen hvalid
        apply himg
        intro name2 _
        exact ⟨f, hopen, hvalid⟩
      rw [run_rejected env opts name hV (Or.inr hF) hrej]
      exact ⟨[], by simp [Res.state, State.after, State.init]⟩

/-! ## Every run ends -/

/-- Every run of `main` ends the process, by `return 0`, `errx` or `err`: the loops are
never short of iterations. -/
theorem run_ends (env : Env) (opts : Nat) (filename : Option String) :
    ∃ e st, run env opts filename = .halt e st ∧ e ≠ .fuel := by
  cases hV : flag opts opt_V with
  | true => exact ⟨_, _, run_version env opts filename hV, Exit.noConfusion⟩
  | false =>
    by_cases h0 : (env.dev 0).val = RES_OK ∨ flag opts opt_f = true
    · cases filename with
      | none =>
        rw [run_query env opts hV h0]
        by_cases h1 : (env.dev 1).val = 32 ∨ flag opts opt_f = true
        · by_cases h2 : (env.dev 2).val = 20 ∨ flag opts opt_f = true
          · rw [if_pos h1, if_pos h2]; exact ⟨_, _, rfl, Exit.noConfusion⟩
          · rw [if_pos h1, if_neg h2]; exact ⟨_, _, rfl, Exit.noConfusion⟩
        · rw [if_neg h1]; exact ⟨_, _, rfl, Exit.noConfusion⟩
      | some name =>
        by_cases himg : ∃ f, env.fopen = some f ∧ validLength opts (readSize opts f)
        · obtain ⟨f, hopen, hvalid⟩ := himg
          cases hB : flag opts opt_B with
          | false =>
            rcases first_failure (fun j => (env.dev j).val = RES_OK ∨ flag opts opt_f = true)
              (nchunks (readSize opts f)) with h | ⟨m, hm, hlt, hbad⟩
            · exact ⟨_, _, run_fw_ok env opts name f hV hB hopen hvalid h, Exit.noConfusion⟩
            · cases m with
              | zero => exact absurd h0 hbad
              | succ m =>
                exact ⟨_, _, run_fw_abort env opts name f m hV hB hopen hvalid (by omega)
                  (fun j hj => hlt j (by omega)) hbad, Exit.noConfusion⟩
          | true =>
            rcases first_failure (fun j => (env.dev j).val = RES_OK ∨ flag opts opt_f = true)
              (nchunks (readSize opts f) + 1) with h | ⟨m, hm, hlt, hbad⟩
            · exact ⟨_, _, run_bl_ok env opts name f hV hB hopen hvalid h, Exit.noConfusion⟩
            · cases m with
              | zero => exact absurd h0 hbad
              | succ m =>
                by_cases hmn : m < nchunks (readSize opts f)
                · exact ⟨_, _, run_bl_abort env opts name f m hV hB hopen hvalid hmn
                    (fun j hj => hlt j (by omega)) hbad, Exit.noConfusion⟩
                · have hmn2 : m = nchunks (readSize opts f) := by omega
                  subst hmn2
                  exact ⟨_, _, run_bl_abort_last env opts name f hV hB hopen hvalid
                    (fun j hj => hlt j (by omega)) hbad, Exit.noConfusion⟩
        · have hrej : ∀ f, env.fopen = some f → ¬ validLength opts (readSize opts f) :=
            fun f hopen hvalid => himg ⟨f, hopen, hvalid⟩
          refine ⟨_, _, run_rejected env opts name hV h0 hrej, ?_⟩
          cases env.fopen with
          | none => exact Exit.noConfusion
          | some f =>
            simp only
            split <;> exact Exit.noConfusion
    · exact ⟨_, _, run_probe_abort env opts filename hV h0, Exit.noConfusion⟩

/-! ## The claims -/

/-- C1: for each target (`capacity` 4096 for the bootloader, 26624 for the firmware) and
every opened image file whose read yields `length = min(file size, capacity)` bytes
(the specification lets `length` be the bytes read in the "else" of the failed read,
which is 0 bytes with the error condition of the stream): the image is accepted iff
`0 < length < capacity` and `length % 4 == 0`, the accepted image is the first `length`
bytes of the file, and in every other case the loader ends the process with the
"Invalid image" error; a run that reaches the loader (probe check passed) then ends
with that error and exit status 1. -/
theorem loadImage_accepts_iff (env : Env) (opts : Nat) (name : String) (f : FileStream)
    (s : State) (hopen : env.fopen = some f)
    (hread : ¬ (readSize opts f = 0 ∧ f.error = true)) :
    (capacity opts = if flag opts opt_B = true then 4096 else 26624) ∧
    readSize opts f = min (f.bytes.length : Int) (capacity opts) ∧
    ((∃ img, loadImage env opts name s = .cont img s) ↔
      (0 < readSize opts f ∧ readSize opts f < capacity opts ∧ readSize opts f % 4 = 0)) ∧
    ((0 < readSize opts f ∧ readSize opts f < capacity opts ∧ readSize opts f % 4 = 0) →
      loadImage env opts name s =
        .cont (f.bytes.take (readSize opts f).toNat, readSize opts f) s) ∧
    (¬ (0 < readSize opts f ∧ readSize opts f < capacity opts ∧ readSize opts f % 4 = 0) →
      loadImage env opts name s = .halt (.invalidImage name) s) ∧
    (¬ (0 < readSize opts f ∧ readSize opts f < capacity opts ∧ readSize opts f % 4 = 0) →
      flag opts opt_V = false → ((env.dev 0).val = RES_OK ∨ flag opts opt_f = true) →
      (run env opts (some name)).exit? = some (.invalidImage name) ∧
      (run env opts (some name)).exit?.bind Exit.status = some 1) := by
  have hcap : capacity opts = 4096 ∨ capacity opts = 26624 := by
    unfold capacity; split <;> simp
  have hrs : readSize opts f = min (f.bytes.length : Int) (capacity opts) := by
    unfold readSize readData
    rw [List.length_take]
    omega
  have hdata : readData opts f = f.bytes.take (readSize opts f).toNat := by
    unfold readSize readData
    rw [List.length_take, Int.toNat_ofNat, List.take_eq_take]
    omega
  have hrun := loadImage_some env opts name s f hopen
  rw [if_neg hread] at hrun
  refine ⟨rfl, hrs, ?_, ?_, ?_, ?_⟩
  · constructor
    · rintro ⟨img, himg⟩
      by_contra hv
      rw [hrun, if_neg (show ¬ validLength opts (readSize opts f) from hv)] at himg
      exact Res.noConfusion himg
    · intro hv
      exact ⟨_, by rw [hrun, if_pos (show validLength opts (readSize opts f) from hv)]⟩
  · intro hv
    rw [hrun, if_pos (show validLength opts (readSize opts f) from hv), hdata]
  · intro hv
    rw [hrun, if_neg (show ¬ validLength opts (readSize opts f) from hv)]
  · intro hv hV h0
    have hrej : ∀ f2, env.fopen = some f2 → ¬ validLength opts (readSize opts f2) := by
      intro f2 h2
      rw [hopen] at h2
      cases h2
      exact hv
    rw [run_rejected env opts name hV h0 hrej, hopen]
    simp only [if_neg hread]
    exact ⟨rfl, rfl⟩

/-- C1 (witness): a bootloader image file of 8 bytes read without error. -/
theorem loadImage_accepts_iff_witness :
    loadImage env8 2 "boot.bin" State.init =
      .cont ([1, 2, 3, 4, 5, 6, 7, 8], 8) State.init :=
  (loadImage_accepts_iff env8 2 "boot.bin" ⟨[1, 2, 3, 4, 5, 6, 7, 8], false⟩
    State.init rfl (by decide)).2.2.2.1 (by decide)

/-- C2: the mismatch policy of `checkres`.  The check succeeds silently (nothing sent,
received or printed) iff `res == val` or ForceMode (`-f`) is on; when `res != val` and
ForceMode is off it ends the process at once, whatever would follow, with exit status 1
and the message made of the label `msg`, the actual value `res` and the expected value
`val`. -/
theorem checkres_policy (opts : Nat) (res val : Int) (msg : String) (s : State) :
    (checkres opts res val msg s = .cont () s ↔ (res = val ∨ flag opts opt_f = true)) ∧
    (checkres opts res val msg s = .halt (.errx msg res val) s ↔
      (res ≠ val ∧ flag opts opt_f = false)) ∧
    (Exit.errx msg res val).status = some 1 ∧
    (∀ (k : Unit → Prog Unit), res ≠ val ∧ flag opts opt_f = false →
      (checkres opts res val msg >>= k) s = .halt (.errx msg res val) s) := by
  simp only [bind_run, checkres_run]
  by_cases h : res = val ∨ flag opts opt_f = true
  · have h2 : ¬ (res ≠ val ∧ flag opts opt_f = false) := by
      rcases h with h | h
      · exact fun hh => hh.1 h
      · exact fun hh => by simp [h] at hh
    simp [h, h2, Exit.status]
  · have h2 : res ≠ val ∧ flag opts opt_f = false := by
      constructor
      · exact fun hh => h (Or.inl hh)
      · cases hfl : flag opts opt_f
        · rfl
        · exact absurd (Or.inr hfl) h
    simp [h, h2, Exit.status]

/-- C3: chunking.  For every image length `L >= 0`, when every check passes, both loops
`for (pos = 0; pos < L; pos += 1024)` run to their end, and the lengths
`maxlen(pos, L)` of the chunks they send (the same in both loops) sum exactly to `L`, are
all at most 1024, and are all exactly 1024 except possibly the last. -/
theorem chunking (env : Env) (opts : Nat) (data : List UInt8) (L : Int) (s : State)
    (hL : 0 ≤ L)
    (hp : ∀ j, (env.dev j).val = RES_OK ∨ flag opts opt_f = true) :
    ∃ tf tb : List Event,
      fwLoop env opts data L L.toNat 0 s =
        .cont () (s.after tf (nchunks L) ((List.range (nchunks L)).map (progressLine L))) ∧
      blLoop env opts data L L.toNat 0 s =
        .cont () (s.after tb (nchunks L) ((List.range (nchunks L)).map (progressLine L))) ∧
      chunkLens tf = (List.range (nchunks L)).map (fun (k : Nat) => maxlen (1024 * (k : Int)) L) ∧
      chunkLens tb = chunkLens tf ∧
      (chunkLens tf).sum = L ∧
      (∀ x ∈ chunkLens tf, x ≤ 1024) ∧
      (∀ i, i + 1 < (chunkLens tf).length → (chunkLens tf).getD i 0 = 1024) := by
  have hfuel : nchunks L ≤ L.toNat := by unfold nchunks; omega
  have hf := fwLoop_ok env opts data L (nchunks L) 0 L.toNat s (by omega) hfuel
    (fun j _ => hp _)
  have hb := blLoop_ok env opts data L (nchunks L) 0 L.toNat s (by omega) hfuel
    (fun j _ => hp _)
  simp only [Nat.cast_zero, mul_zero, ← List.range_eq_range'] at hf hb
  have e1 := chunkLens_fwCalls data L 0 (nchunks L)
  have e2 := chunkLens_blCalls data L 0 (nchunks L)
  rw [← List.range_eq_range'] at e1 e2
  refine ⟨_, _, hf, hb, e1, by rw [e1, e2], ?_, ?_, ?_⟩
  · rw [e1, List.range_eq_range', sum_maxlen L (nchunks L) 0 (by omega)]
    simp only [Nat.cast_zero, mul_zero, sub_zero]
    omega
  · intro x hx
    rw [e1] at hx
    obtain ⟨k, _, rfl⟩ := List.mem_map.1 hx
    rw [maxlen_eq_min]; omega
  · intro i hi
    rw [e1] at hi ⊢
    simp only [List.length_map, List.length_range] at hi
    have h1 : 1024 * ((i + 1 : Nat) : Int) < L := (lt_size_iff L (i + 1)).2 hi
    rw [List.getD_eq_getElem _ _ (by simp; omega)]
    simp only [List.getElem_map, List.getElem_range, maxlen_eq_min]
    push_cast at h1
    omega

/-- C3 (witness): an image of 2052 bytes on a device that acknowledges every chunk. -/
theorem chunking_witness :
    ∃ tf tb : List Event,
      fwLoop env8 0 (List.replicate 2052 7) 2052 (2052 : Int).toNat 0 State.init =
        .cont () (State.init.after tf (nchunks 2052)
          ((List.range (nchunks 2052)).map (progressLine 2052))) ∧
      blLoop env8 0 (List.replicate 2052 7) 2052 (2052 : Int).toNat 0 State.init =
        .cont () (State.init.after tb (nchunks 2052)
          ((List.range (nchunks 2052)).map (progressLine 2052))) ∧
      chunkLens tf =
        (List.range (nchunks 2052)).map (fun (k : Nat) => maxlen (1024 * (k : Int)) 2052) ∧
      chunkLens tb = chunkLens tf ∧
      (chunkLens tf).sum = 2052 ∧
      (∀ x ∈ chunkLens tf, x ≤ 1024) ∧
      (∀ i, i + 1 < (chunkLens tf).length → (chunkLens tf).getD i 0 = 1024) :=
  chunking env8 0 (List.replicate 2052 7) 2052 State.init (by decide) (fun _ => Or.inl rfl)

/-- C4: in a firmware update of any accepted image, whatever the device answers, the
block numbers sent (one in each Write exchange, before the chunk) equal `offset / 1024`
for the offset of the chunk, start at 0 and grow by exactly 1 from one exchange to the
next; when every check passes there is one for each of the chunks. -/
theorem block_indices (env : Env) (opts : Nat) (name : String) (f : FileStream)
    (hV : flag opts opt_V = false) (hB : flag opts opt_B = false)
    (hopen : env.fopen = some f) (hvalid : validLength opts (readSize opts f)) :
    (∀ p ∈ writeExchanges (run env opts (some name)).state.trace,
      p.1 = Int.tdiv p.2 1024) ∧
    (writeExchanges (run env opts (some name)).state.trace).map Prod.fst =
      (List.range (writeExchanges (run env opts (some name)).state.trace).length).map
        (fun (k : Nat) => (k : Int)) ∧
    (writeExchanges (run env opts (some name)).state.trace).map Prod.snd =
      (List.range (writeExchanges (run env opts (some name)).state.trace).length).map
        (fun (k : Nat) => 1024 * (k : Int)) ∧
    (writeExchanges (run env opts (some name)).state.trace).length
      ≤ nchunks (readSize opts f) ∧
    ((∀ j, (env.dev j).val = RES_OK ∨ flag opts opt_f = true) →
      (writeExchanges (run env opts (some name)).state.trace).length
        = nchunks (readSize opts f)) := by
  obtain ⟨m, tail, hm, htail, htrace, hall⟩ :=
    run_fw_trace env opts name f hV hB hopen hvalid
  have hw : writeExchanges (run env opts (some name)).state.trace =
      (List.range m).map (fun (i : Nat) => ((i : Int), 1024 * (i : Int))) := by
    rw [htrace, List.append_assoc]
    have : writeExchanges tail = [] := by
      rcases htail with h | h <;> simp [h, writeExchanges]
    rw [writeExchanges_probeCalls, List.range_eq_range', writeExchanges_flatMap, this,
      List.append_nil]
    apply List.map_congr_left
    intro i _
    rw [Int.mul_tdiv_cancel_left _ (by decide)]
  rw [hw]
  refine ⟨?_, ?_, ?_, ?_, ?_⟩
  · intro p hp
    obtain ⟨i, _, rfl⟩ := List.mem_map.1 hp
    simp only
    rw [Int.mul_tdiv_cancel_left _ (by decide)]
  · simp [List.map_map, Function.comp_def]
  · simp [List.map_map, Function.comp_def]
  · simpa using hm
  · intro h
    simpa using (hall (fun j _ => h j)).1

/-- C4 (witness): the firmware update of an 8-byte image. -/
theorem block_indices_witness :
    (∀ p ∈ writeExchanges (run env8 0 (some "fw.bin")).state.trace,
      p.1 = Int.tdiv p.2 1024) ∧
    (writeExchanges (run env8 0 (some "fw.bin")).state.trace).map Prod.fst =
      (List.range (writeExchanges (run env8 0 (some "fw.bin")).state.trace).length).map
        (fun (k : Nat) => (k : Int)) ∧
    (writeExchanges (run env8 0 (some "fw.bin")).state.trace).map Prod.snd =
      (List.range (writeExchanges (run env8 0 (some "fw.bin")).state.trace).length).map
        (fun (k : Nat) => 1024 * (k : Int)) ∧
    (writeExchanges (run env8 0 (some "fw.bin")).state.trace).length
      ≤ nchunks (readSize 0 ⟨[1, 2, 3, 4, 5, 6, 7, 8], false⟩) ∧
    ((∀ j, (env8.dev j).val = RES_OK ∨ flag 0 opt_f = true) →
      (writeExchanges (run env8 0 (some "fw.bin")).state.trace).length
        = nchunks (readSize 0 ⟨[1, 2, 3, 4, 5, 6, 7, 8], false⟩)) :=
  block_indices env8 0 "fw.bin" ⟨[1, 2, 3, 4, 5, 6, 7, 8], false⟩ rfl rfl rfl (by decide)

/-- C5: the firmware update sequence.  For every accepted firmware image of length `L`
with every reply `Ok`, the run exits 0 and its transport calls are: the connection
opened and the probe exchange, then exactly `n = ceil(L / 1024)` Write exchanges, for
`k = 0 .. n-1` in this order, each one send `Write` (3), send the integer `k`, send the
chunk of `min(1024, L - 1024k)` bytes at offset `1024k`, receive one value; after the
acknowledgment of the last chunk the connection is closed and nothing more is sent or
received. -/
theorem firmware_update_sequence (env : Env) (opts : Nat) (name : String) (f : FileStream)
    (hV : flag opts opt_V = false) (hB : flag opts opt_B = false)
    (hopen : env.fopen = some f) (hvalid : validLength opts (readSize opts f))
    (hok : ∀ j, (env.dev j).val = RES_OK) :
    (run env opts (some name)).exit? = some (.ret 0) ∧
    (1024 * (nchunks (readSize opts f) : Int) - 1024 < readSize opts f ∧
      readSize opts f ≤ 1024 * (nchunks (readSize opts f) : Int)) ∧
    (run env opts (some name)).state.trace =
      probeCalls ++
        (List.range (nchunks (readSize opts f))).flatMap
          (specWriteExchange (readData opts f) (readSize opts f)) ++
        [.close] := by
  rw [run_fw_ok env opts name f hV hB hopen hvalid (fun j _ => Or.inl (hok j)),
    fwCalls_eq_spec]
  refine ⟨rfl, nchunks_ceil _ hvalid.1, ?_⟩
  simp [Res.state, State.after, State.init]

/-- C5 (witness): scenario A, a firmware image of 1028 bytes: two Write exchanges, block 0
with 1024 bytes then block 1 with 4 bytes, and exit 0. -/
theorem firmware_update_sequence_witness :
    (run env1028 0 (some "fw.bin")).exit? = some (.ret 0) ∧
    (run env1028 0 (some "fw.bin")).state.trace =
      [.openserial, .sendval 0, .recvval,
        .sendval 3, .sendval 0, .senddata 0 1024 (List.replicate 1024 7), .recvval,
        .sendval 3, .sendval 1, .senddata 1024 4 (List.replicate 4 7), .recvval,
        .close] := by
  have hcap : capacity 0 = 26624 := by decide
  have hsz : readSize 0 ⟨List.replicate 1028 7, false⟩ = 1028 := by
    simp only [readSize, readData, hcap, List.length_take, List.length_replicate]
    decide
  have hdata : readData 0 ⟨List.replicate 1028 7, false⟩ = List.replicate 1028 7 := by
    simp only [readData, hcap, List.take_replicate]
    rfl
  have h := firmware_update_sequence env1028 0 "fw.bin" ⟨List.replicate 1028 7, false⟩
    rfl rfl rfl (by rw [validLength, hsz]; decide) (fun _ => rfl)
  refine ⟨h.1, ?_⟩
  have hn : nchunks 1028 = 2 := by decide
  have r2 : List.range 2 = [0, 1] := rfl
  rw [h.2.2, hsz, hdata, hn]
  simp only [r2, List.flatMap_cons, List.flatMap_nil, specWriteExchange, probeCalls,
    List.drop_replicate, List.take_replicate, List.cons_append, List.nil_append,
    List.append_nil, CMD_PROBE]
  norm_num
  exact ⟨rfl, rfl⟩

/-- C6: the bootloader update sequence.  For every accepted bootloader image of length
`L` with every reply `Ok`, the run exits 0; after the probe exchange it sends `Update`
(4) exactly once, then for each of the `n = ceil(L / 1024)` chunks only the bytes of the
chunk (no `sendval` at all, so no Write command and no block number) followed by one
acknowledgment receive, then one more acknowledgment receive after the loop; so exactly
`n + 1` acknowledgments are received after `Update`. -/
theorem bootloader_update_sequence (env : Env) (opts : Nat) (name : String)
    (f : FileStream)
    (hV : flag opts opt_V = false) (hB : flag opts opt_B = true)
    (hopen : env.fopen = some f) (hvalid : validLength opts (readSize opts f))
    (hok : ∀ j, (env.dev j).val = RES_OK) :
    (run env opts (some name)).exit? = some (.ret 0) ∧
    (1024 * (nchunks (readSize opts f) : Int) - 1024 < readSize opts f ∧
      readSize opts f ≤ 1024 * (nchunks (readSize opts f) : Int)) ∧
    (run env opts (some name)).state.trace =
      probeCalls ++ [.sendval 4] ++
        ((List.range (nchunks (readSize opts f))).flatMap
          (specChunkExchange (readData opts f) (readSize opts f)) ++
        [.recvval, .close]) ∧
    (∀ e ∈ (List.range (nchunks (readSize opts f))).flatMap
          (specChunkExchange (readData opts f) (readSize opts f)) ++
        [Event.recvval, Event.close], ∀ v, e ≠ .sendval v) ∧
    ((List.range (nchunks (readSize opts f))).flatMap
          (specChunkExchange (readData opts f) (readSize opts f)) ++
        [Event.recvval, Event.close]).countP Event.isRecv
      = nchunks (readSize opts f) + 1 := by
  rw [run_bl_ok env opts name f hV hB hopen hvalid (fun j _ => Or.inl (hok j)),
    blCalls_eq_spec]
  refine ⟨rfl, nchunks_ceil _ hvalid.1, ?_, ?_, ?_⟩
  · simp [Res.state, State.after, State.init, CMD_UPDATE]
  · intro e he v
    rw [List.mem_append, List.mem_flatMap] at he
    rcases he with ⟨k, _, hk⟩ | he
    · simp only [specChunkExchange, List.mem_cons, List.mem_singleton, List.not_mem_nil,
        or_false] at hk
      rcases hk with rfl | rfl <;> exact Event.noConfusion
    · simp only [List.mem_cons, List.mem_singleton, List.not_mem_nil, or_false] at he
      rcases he with rfl | rfl <;> exact Event.noConfusion
  · rw [List.countP_append, countP_isRecv_spec]
    simp [Event.isRecv, List.countP_cons]

/-- C6 (witness): the bootloader update of an 8-byte image: `Update`, one chunk with its
acknowledgment, and the acknowledgment after the reboot. -/
theorem bootloader_update_sequence_witness :
    (run env8 2 (some "boot.bin")).exit? = some (.ret 0) ∧
    (run env8 2 (some "boot.bin")).state.trace =
      [.openserial, .sendval 0, .recvval, .sendval 4,
        .senddata 0 8 [1, 2, 3, 4, 5, 6, 7, 8], .recvval, .recvval, .close] := by
  have h := bootloader_update_sequence env8 2 "boot.bin" ⟨[1, 2, 3, 4, 5, 6, 7, 8], false⟩
    rfl rfl rfl (by decide) (fun _ => rfl)
  refine ⟨h.1, ?_⟩
  rw [h.2.2.1]
  decide

/-- C7: firmware info decoding.  For every 20-byte record, whatever follows it in
memory, the firmware is reported present iff `bytes[0] = 0xEA` and `bytes[1] = 0x32`
(the 16-bit value `0x32ea` read little-endian at offset 0), and then the revision
printed is `bytes[2]` as an unsigned value; for any other first two bytes the report is
"Firmware not installed", whatever the other 18 bytes are. -/
theorem firmware_info_decoding (record rest : List UInt8) (hlen : record.length = 20) :
    load16 (record ++ rest) = (record.getD 0 0).toNat + 256 * (record.getD 1 0).toNat ∧
    (printFwInfo (record ++ rest) ≠ .fwNotInstalled ↔
      (record.getD 0 0 = 0xEA ∧ record.getD 1 0 = 0x32)) ∧
    ((record.getD 0 0 = 0xEA ∧ record.getD 1 0 = 0x32) →
      ∃ name, printFwInfo (record ++ rest) = .fwRevision (record.getD 2 0).toNat name) ∧
    (¬ (record.getD 0 0 = 0xEA ∧ record.getD 1 0 = 0x32) →
      printFwInfo (record ++ rest) = .fwNotInstalled) := by
  have g0 : (record ++ rest).getD 0 0 = record.getD 0 0 :=
    List.getD_append _ _ _ _ (by omega)
  have g1 : (record ++ rest).getD 1 0 = record.getD 1 0 :=
    List.getD_append _ _ _ _ (by omega)
  have g2 : (record ++ rest).getD 2 0 = record.getD 2 0 :=
    List.getD_append _ _ _ _ (by omega)
  have hl : load16 (record ++ rest) =
      (record.getD 0 0).toNat + 256 * (record.getD 1 0).toNat := by
    unfold load16; rw [g0, g1]
  have hmagic : load16 (record ++ rest) = 0x32ea ↔
      (record.getD 0 0 = 0xEA ∧ record.getD 1 0 = 0x32) := by
    rw [hl]
    have b0 := UInt8.toNat_lt (record.getD 0 0)
    have b1 := UInt8.toNat_lt (record.getD 1 0)
    constructor
    · intro h
      constructor
      · apply UInt8.ext
        show (record.getD 0 0).toNat = 234
        omega
      · apply UInt8.ext
        show (record.getD 1 0).toNat = 50
        omega
    · rintro ⟨h0, h1⟩
      rw [h0, h1]
      decide
  refine ⟨hl, ?_, ?_, ?_⟩
  · rw [← hmagic]
    unfold printFwInfo
    by_cases h : load16 (record ++ rest) = 0x32ea
    · simp [h]
    · simp [h]
  · intro h
    refine ⟨cstr ((record ++ rest).drop 4), ?_⟩
    unfold printFwInfo
    rw [if_pos (hmagic.2 h), g2]
  · intro h
    unfold printFwInfo
    rw [if_neg (fun hh => h (hmagic.1 hh))]

/-- C7 (witness): the record `[0xEA, 0x32, 0x07, ...]` decodes to present, revision 7. -/
theorem firmware_info_decoding_witness :
    ∃ name, printFwInfo (recordESC ++ []) = .fwRevision 7 name :=
  (firmware_info_decoding recordESC [] (by decide)).2.2.1 (by decide)

/-- C8 (the code at the failing input): a query whose 20-byte firmware record carries the
magic and 16 name bytes none of which is null.  The run exits 0 and the name it prints
has 17 bytes: the 16 bytes of `bytes[4:20]` followed by the byte `B` that lies in memory
after the record, where `printf("%s", fwinfo + 4)` goes on reading until a null byte. -/
theorem fwname_overrun :
    (run envName16 0 none).exit? = some (.ret 0) ∧
    (run envName16 0 none).state.out.getLast? =
      some (.fwRevision 7 (recordName16.drop 4 ++ [0x42])) ∧
    (recordName16.drop 4 ++ [0x42]).length = 17 ∧
    recordName16.length = 20 := by
  decide

/-- C9: ForceMode on.  For every mode (query, firmware update, bootloader update), every
accepted image and every sequence of reply values and received lengths, the run makes
every step and exits 0, and its transport calls (so in particular the values and data it
sends, in order) are the same as in a run, with ForceMode on or off, on a device every
reply of which is the expected one. -/
theorem force_completes (env env2 : Env) (opts opts2 : Nat) (filename : Option String)
    (hf : flag opts opt_f = true)
    (hB : flag opts2 opt_B = flag opts opt_B) (hV : flag opts2 opt_V = flag opts opt_V)
    (hfile : env2.fopen = env.fopen)
    (himg : ∀ name, filename = some name →
      ∃ f, env.fopen = some f ∧ validLength opts (readSize opts f))
    (hexp : ∀ j, (env2.dev j).val = expected filename j) :
    (run env opts filename).exit? = some (.ret 0) ∧
    (run env2 opts2 filename).exit? = some (.ret 0) ∧
    (run env opts filename).state.trace = (run env2 opts2 filename).state.trace ∧
    (run env opts filename).state.trace.filter Event.isSend =
      (run env2 opts2 filename).state.trace.filter Event.isSend := by
  have h1 := run_complete env opts filename himg (fun j => Or.inr hf)
  have himg2 : ∀ name, filename = some name →
      ∃ f, env2.fopen = some f ∧ validLength opts2 (readSize opts2 f) := by
    intro name hn
    obtain ⟨f, hopen, hvalid⟩ := himg name hn
    refine ⟨f, by rw [hfile, hopen], ?_⟩
    rw [readSize_congr opts opts2 f hB]
    exact (validLength_congr opts opts2 _ hB).2 hvalid
  have h2 := run_complete env2 opts2 filename himg2 (fun j => Or.inl (hexp j))
  have ht : (run env opts filename).state.trace = (run env2 opts2 filename).state.trace := by
    rw [h1.2.2, h2.2.2, hB, hV, hfile]
    cases filename with
    | none => rfl
    | some name =>
      cases env.fopen with
      | none => rfl
      | some f => simp only [readSize_congr opts opts2 f hB, readData_congr opts opts2 f hB]
  exact ⟨h1.1, h2.1, ht, by rw [ht]⟩

/-- C9 (witness): a firmware update with ForceMode on, on a device that answers every
receive with `RES_ERROR`, compared with the same update on a device that answers
`RES_OK`, ForceMode off. -/
theorem force_completes_witness :
    (run envError 1 (some "fw.bin")).exit?
      = some (.ret 0) ∧
    (run env8 0 (some "fw.bin")).exit? = some (.ret 0) ∧
    (run envError 1 (some "fw.bin")).state.trace =
      (run env8 0 (some "fw.bin")).state.trace ∧
    (run envError 1 (some "fw.bin")).state.trace.filter
        Event.isSend =
      (run env8 0 (some "fw.bin")).state.trace.filter Event.isSend :=
  force_completes envError env8 1 0 (some "fw.bin")
    rfl rfl rfl rfl (fun _ _ => ⟨_, rfl, by decide⟩) (fun _ => rfl)

/-- C10: ForceMode off.  Let the `k`-th receive (counted from 0) be the first whose value
differs from the expected one, among the receives of the complete run.  Then the run
ends at that check with the `errx` of `checkres` (exit status 1, the actual and the
expected value in the message): that receive is made once and is the last transport
call, and the calls made are the first calls of the complete run (the run with
ForceMode on), so nothing is retried and nothing is sent or received after the check.
In particular, if the probe reply is not `Ok` the whole trace is the connection opened,
send `Probe` (0), receive one value: no `Info`, `Read`, `Write` or `Update` and no image
data is sent. -/
theorem abort_at_first_mismatch (env : Env) (opts optsF : Nat) (filename : Option String)
    (k : Nat)
    (hf : flag opts opt_f = false) (hF : flag optsF opt_f = true)
    (hB : flag optsF opt_B = flag opts opt_B) (hV : flag optsF opt_V = flag opts opt_V)
    (hk : k < (run env optsF filename).state.nrecv)
    (hpre : ∀ j, j < k → (env.dev j).val = expected filename j)
    (hbad : (env.dev k).val ≠ expected filename k) :
    ((∃ msg, (run env opts filename).exit? =
        some (.errx msg (env.dev k).val (expected filename k))) ∧
      (run env opts filename).exit?.bind Exit.status = some 1 ∧
      (run env opts filename).state.nrecv = k + 1 ∧
      (run env opts filename).state.trace.countP Event.isRecv = k + 1 ∧
      (∃ e', (run env opts filename).state.trace.getLast? = some e' ∧ e'.isRecv = true) ∧
      (run env opts filename).state.trace <+: (run env optsF filename).state.trace) ∧
    (k = 0 →
      (run env opts filename).state.trace = [.openserial, .sendval 0, .recvval]) := by
  have hnf : ∀ (x : Int) (y : Int), x ≠ y → ¬ (x = y ∨ flag opts opt_f = true) := by
    intro x y hxy h
    rcases h with h | h
    · exact hxy h
    · rw [hf] at h; exact Bool.noConfusion h
  cases hVo : flag opts opt_V with
  | true =>
    exfalso
    rw [run_version env optsF filename (hV.trans hVo)] at hk
    simp [Res.state, State.after, State.init] at hk
  | false =>
    have hVF : flag optsF opt_V = false := hV.trans hVo
    cases k with
    | zero =>
      rw [expected_zero] at hbad ⊢
      have hr := run_probe_abort env opts filename hVo (hnf _ _ hbad)
      obtain ⟨t1, ht1⟩ := forced_trace_probe env optsF filename hVF hF
      refine ⟨?_, fun _ => ?_⟩
      · rw [ht1]
        exact abort_shape _ _ _ _ probeCalls [.openserial, .sendval CMD_PROBE] t1 _
          .recvval 0 _ hr rfl rfl rfl rfl
      · rw [hr]; rfl
    | succ m =>
      refine ⟨?_, fun h => absurd h (Nat.succ_ne_zero m)⟩
      have h0 : (env.dev 0).val = RES_OK ∨ flag opts opt_f = true :=
        Or.inl (by rw [← expected_zero filename]; exact hpre 0 (by omega))
      cases filename with
      | none =>
        have hc := run_complete env optsF none (fun name hn => Option.noConfusion hn)
          (fun j => Or.inr hF)
        rw [hc.2.1, hVF] at hk
        rw [hc.2.2, hVF]
        simp only [Bool.false_eq_true, if_false] at hk ⊢
        have hq := run_query env opts hVo h0
        cases m with
        | zero =>
          have hb1 : ¬ ((env.dev 1).val = 32 ∨ flag opts opt_f = true) := hnf _ _ hbad
          rw [if_neg hb1] at hq
          exact abort_shape _ _ _ _ _ (probeCalls ++ [.sendval CMD_INFO])
            [.sendval CMD_READ, .sendval 0, .sendval 4, .recvdata, .close] _
            .recvdata 1 _ hq (by simp) rfl (by decide) (by simp)
        | succ m =>
          have hm : m = 0 := by omega
          subst hm
          have h1 : (env.dev 1).val = 32 ∨ flag opts opt_f = true :=
            Or.inl (hpre 1 (by omega))
          have hb2 : ¬ ((env.dev 2).val = 20 ∨ flag opts opt_f = true) := hnf _ _ hbad
          rw [if_pos h1, if_neg hb2] at hq
          exact abort_shape _ _ _ _ _
            (probeCalls ++ [.sendval CMD_INFO, .recvdata, .sendval CMD_READ, .sendval 0,
              .sendval 4])
            [.close] _ .recvdata 2 _ hq (by simp) rfl (by decide) (by simp)
      | some name =>
        have hpre2 : ∀ j, j ≤ m → (env.dev j).val = RES_OK ∨ flag opts opt_f = true := by
          intro j hj
          exact Or.inl (by rw [← expected_some name j]; exact hpre j (by omega))
        have hbad2 : ¬ ((env.dev (m + 1)).val = RES_OK ∨ flag opts opt_f = true) :=
          hnf _ _ (by rw [← expected_some name (m + 1)]; exact hbad)
        by_cases himg : ∃ f, env.fopen = some f ∧ validLength opts (readSize opts f)
        · obtain ⟨f, hopen, hvalid⟩ := himg
          have hvalidF : validLength optsF (readSize optsF f) := by
            rw [readSize_congr opts optsF f hB]
            exact (validLength_congr opts optsF _ hB).2 hvalid
          have hc := run_complete env optsF (some name)
            (fun _ _ => ⟨f, hopen, hvalidF⟩) (fun j => Or.inr hF)
          rw [hc.2.1, hVF] at hk
          rw [hc.2.2, hVF]
          simp only [Bool.false_eq_true, if_false, hopen, hB,
            readSize_congr opts optsF f hB, readData_congr opts optsF f hB] at hk ⊢
          cases hBo : flag opts opt_B with
          | false =>
            simp only [hBo, Bool.false_eq_true, if_false] at hk ⊢
            have hr := run_fw_abort env opts name f m hVo hBo hopen hvalid (by omega)
              hpre2 hbad2
            rw [flatMap_range_split _ (m + 1) _ (show m + 1 ≤ _ by omega)]
            exact abort_shape _ _ _ _ _
              (probeCalls ++ ((List.range m).flatMap
                  (fwCalls (readData opts f) (readSize opts f)) ++
                [.sendval CMD_WRITE, .sendval (Int.tdiv (1024 * (m : Int)) 1024),
                  chunkCall (readData opts f) (readSize opts f) m]))
              ((List.range' (m + 1) (nchunks (readSize opts f) - (m + 1))).flatMap
                  (fwCalls (readData opts f) (readSize opts f)) ++ [.close]) _
              .recvval (m + 1) _ hr
              (by rw [fwCalls_range_succ]; simp only [List.append_assoc])
              rfl
              (by
                rw [List.countP_append, List.countP_append, countP_isRecv_fwCalls]
                simp [probeCalls, chunkCall, Event.isRecv, List.countP_cons]
                omega)
              (by simp only [List.append_assoc])
          | true =>
            simp only [hBo, if_true] at hk ⊢
            by_cases hmn : m < nchunks (readSize opts f)
            · have hr := run_bl_abort env opts name f m hVo hBo hopen hvalid hmn
                hpre2 hbad2
              rw [flatMap_range_split _ (m + 1) _ (show m + 1 ≤ _ by omega)]
              exact abort_shape _ _ _ _ _
                (probeCalls ++ [.sendval CMD_UPDATE] ++ ((List.range m).flatMap
                    (blCalls (readData opts f) (readSize opts f)) ++
                  [chunkCall (readData opts f) (readSize opts f) m]))
                ((List.range' (m + 1) (nchunks (readSize opts f) - (m + 1))).flatMap
                    (blCalls (readData opts f) (readSize opts f)) ++ [.recvval, .close]) _
                .recvval (m + 1) _ hr
                (by rw [blCalls_range_succ]; simp only [List.append_assoc])
                rfl
                (by
                  rw [List.countP_append, List.countP_append, List.countP_append,
                    countP_isRecv_blCalls]
                  simp [probeCalls, chunkCall, Event.isRecv, List.countP_cons]
                  omega)
                (by simp only [List.append_assoc])
            · have hmn2 : m = nchunks (readSize opts f) := by omega
              subst hmn2
              have hr := run_bl_abort_last env opts name f hVo hBo hopen hvalid
                hpre2 hbad2
              exact abort_shape _ _ _ _ _
                (probeCalls ++ [.sendval CMD_UPDATE] ++
                  (List.range (nchunks (readSize opts f))).flatMap
                    (blCalls (readData opts f) (readSize opts f)))
                [.close] _ .recvval (nchunks (readSize opts f) + 1) _ hr
                rfl rfl
                (by
                  rw [List.countP_append, List.countP_append, countP_isRecv_blCalls]
                  simp [probeCalls, Event.isRecv, List.countP_cons]
                  omega)
                (by simp only [List.append_assoc, List.singleton_append])
        · exfalso
          have hrej : ∀ f, env.fopen = some f → ¬ validLength optsF (readSize optsF f) := by
            intro f hopen hvalid
            apply himg
            refine ⟨f, hopen, ?_⟩
            rw [readSize_congr opts optsF f hB] at hvalid
            exact (validLength_congr opts optsF _ hB).1 hvalid
          rw [run_rejected env optsF name hVF (Or.inr hF) hrej] at hk
          simp [Res.state, State.after, State.init] at hk

/-- C10 (witness): scenario C, the probe reply is `RES_ERROR` and ForceMode is off: the
run ends with status 1 after the probe exchange; and a firmware update whose first
chunk is answered with `RES_ERROR` ends right after that answer. -/
theorem abort_at_first_mismatch_witness :
    ((run envError 0 (some "fw.bin")).state.trace = [.openserial, .sendval 0, .recvval] ∧
      (run envError 0 (some "fw.bin")).exit?.bind Exit.status = some 1) ∧
    ((run envError1 0 (some "fw.bin")).state.nrecv = 2 ∧
      (run envError1 0 (some "fw.bin")).exit?.bind Exit.status = some 1 ∧
      (run envError1 0 (some "fw.bin")).state.trace <+:
        (run envError1 1 (some "fw.bin")).state.trace) :=
  ⟨⟨(abort_at_first_mismatch envError 0 1 (some "fw.bin") 0 rfl rfl rfl rfl (by decide)
        (fun j hj => absurd hj (Nat.not_lt_zero j)) (by decide)).2 rfl,
      (abort_at_first_mismatch envError 0 1 (some "fw.bin") 0 rfl rfl rfl rfl (by decide)
        (fun j hj => absurd hj (Nat.not_lt_zero j)) (by decide)).1.2.1⟩,
    ⟨(abort_at_first_mismatch envError1 0 1 (some "fw.bin") 1 rfl rfl rfl rfl (by decide)
        (fun j hj => by
          have : j = 0 := by omega
          subst this; rfl) (by decide)).1.2.2.1,
      (abort_at_first_mismatch envError1 0 1 (some "fw.bin") 1 rfl rfl rfl rfl (by decide)
        (fun j hj => by
          have : j = 0 := by omega
          subst this; rfl) (by decide)).1.2.1,
      (abort_at_first_mismatch envError1 0 1 (some "fw.bin") 1 rfl rfl rfl rfl (by decide)
        (fun j hj => by
          have : j = 0 := by omega
          subst this; rfl) (by decide)).1.2.2.2.2.2⟩⟩

/-- C11: image validation is never suppressed by ForceMode.  What the loader does with a
file depends on the options only through the target: it is the same for any two option
sets with the same `-B`, so with ForceMode on and off.  In particular a bootloader image
file of 4096 bytes (the capacity) or more ends the process with the "Invalid image"
error under both option sets, and so does every run that reaches the loader. -/
theorem validation_ignores_force (env : Env) (opts opts2 : Nat) (name : String) (s : State)
    (hB : flag opts2 opt_B = flag opts opt_B) :
    loadImage env opts2 name s = loadImage env opts name s ∧
    (∀ f, env.fopen = some f → 4096 ≤ f.bytes.length → flag opts opt_B = true →
      loadImage env opts name s = .halt (.invalidImage name) s ∧
      loadImage env opts2 name s = .halt (.invalidImage name) s ∧
      (flag opts opt_V = false → ((env.dev 0).val = RES_OK ∨ flag opts opt_f = true) →
        (run env opts (some name)).exit? = some (.invalidImage name)) ∧
      (flag opts2 opt_V = false → ((env.dev 0).val = RES_OK ∨ flag opts2 opt_f = true) →
        (run env opts2 (some name)).exit? = some (.invalidImage name))) := by
  have hsame : loadImage env opts2 name s = loadImage env opts name s := by
    unfold loadImage
    rw [capacity_congr opts opts2 hB]
  refine ⟨hsame, ?_⟩
  intro f hopen hlen hBt
  have hcap : capacity opts = 4096 := by unfold capacity; rw [hBt]; rfl
  have hsz : readSize opts f = 4096 := by
    unfold readSize readData
    rw [hcap, List.length_take]
    have : (4096 : Int).toNat = 4096 := rfl
    rw [this]
    omega
  have hnv : ¬ validLength opts (readSize opts f) := by
    unfold validLength; rw [hsz, hcap]; omega
  have hne : ¬ (readSize opts f = 0 ∧ f.error = true) := by rw [hsz]; omega
  have hload : loadImage env opts name s = .halt (.invalidImage name) s := by
    rw [loadImage_some env opts name s f hopen, if_neg hne, if_neg hnv]
  have hrej : ∀ f2, env.fopen = some f2 → ¬ validLength opts (readSize opts f2) := by
    intro f2 h2
    rw [hopen] at h2
    cases h2
    exact hnv
  have hrej2 : ∀ f2, env.fopen = some f2 → ¬ validLength opts2 (readSize opts2 f2) := by
    intro f2 h2
    rw [readSize_congr opts opts2 f2 hB, validLength_congr opts opts2 _ hB]
    exact hrej f2 h2
  have hne2 : ¬ (readSize opts2 f = 0 ∧ f.error = true) := by
    rw [readSize_congr opts opts2 f hB]; exact hne
  refine ⟨hload, by rw [hsame, hload], ?_, ?_⟩
  · intro hV h0
    rw [run_rejected env opts name hV h0 hrej, hopen]
    simp only [if_neg hne]
    rfl
  · intro hV h0
    rw [run_rejected env opts2 name hV h0 hrej2, hopen]
    simp only [if_neg hne2]
    rfl

/-- C11 (witness): scenario B, a bootloader image file of 4096 bytes, with ForceMode off
(`-B`) and on (`-B -f`). -/
theorem validation_ignores_force_witness :
    (run env4096 2 (some "boot.bin")).exit? = some (.invalidImage "boot.bin") ∧
    (run env4096 3 (some "boot.bin")).exit? = some (.invalidImage "boot.bin") :=
  ⟨((validation_ignores_force env4096 2 3 "boot.bin" State.init rfl).2
      ⟨List.replicate 4096 0, false⟩ rfl (by rw [List.length_replicate]) rfl).2.2.1
      rfl (Or.inl rfl),
    ((validation_ignores_force env4096 2 3 "boot.bin" State.init rfl).2
      ⟨List.replicate 4096 0, false⟩ rfl (by rw [List.length_replicate]) rfl).2.2.2
      rfl (Or.inl rfl)⟩

/-- C13: the error kinds of the image loader.  Loading ends with the I/O error
`err(1, filename)` exactly when the file cannot be opened or the read returns 0 bytes
with the error condition of the stream set; a read that returns 0 bytes without the
error condition ends with the "Invalid image" error; and a read that returns `n > 0`
bytes is judged by the length rule alone, whatever the error condition is. -/
theorem loader_error_kinds (env : Env) (opts : Nat) (name : String) (s : State) :
    (loadImage env opts name s = .halt (.err name) s ↔
      (env.fopen = none ∨
        ∃ f, env.fopen = some f ∧ readSize opts f = 0 ∧ f.error = true)) ∧
    (∀ f, env.fopen = some f → readSize opts f = 0 → f.error = false →
      loadImage env opts name s = .halt (.invalidImage name) s) ∧
    (∀ f, env.fopen = some f → 0 < readSize opts f →
      loadImage env opts name s =
        if 0 < readSize opts f ∧ readSize opts f < capacity opts ∧ readSize opts f % 4 = 0
        then .cont (readData opts f, readSize opts f) s
        else .halt (.invalidImage name) s) := by
  refine ⟨?_, ?_, ?_⟩
  · cases hopen : env.fopen with
    | none =>
      rw [loadImage_none env opts name s hopen]
      simp
    | some f =>
      rw [loadImage_some env opts name s f hopen]
      by_cases h1 : readSize opts f = 0 ∧ f.error = true
      · rw [if_pos h1]
        simp [h1]
      · rw [if_neg h1]
        constructor
        · intro h
          exfalso
          by_cases hv : validLength opts (readSize opts f)
          · rw [if_pos hv] at h; exact Res.noConfusion h
          · rw [if_neg hv] at h
            injection h with h2
            exact Exit.noConfusion h2
        · rintro (h | ⟨f2, h2, h3⟩)
          · exact Option.noConfusion h
          · cases h2
            exact absurd h3 h1
  · intro f hopen hz herr
    have h1 : ¬ (readSize opts f = 0 ∧ f.error = true) := by
      rw [herr]; exact fun h => Bool.noConfusion h.2
    have hv : ¬ validLength opts (readSize opts f) := by
      unfold validLength; omega
    rw [loadImage_some env opts name s f hopen, if_neg h1, if_neg hv]
  · intro f hopen hpos
    have h1 : ¬ (readSize opts f = 0 ∧ f.error = true) := by omega
    rw [loadImage_some env opts name s f hopen, if_neg h1]
    rfl

/-! ## The shape of every run -/

/-- Every run that opens the connection ends in one of the ways of `Shape`. -/
theorem run_shape (env : Env) (opts : Nat) (filename : Option String)
    (hV : flag opts opt_V = false) :
    ∃ e st rest, run env opts filename = .halt e st ∧ st.trace = probeCalls ++ rest ∧
      Shape env opts filename e rest := by
  by_cases h0 : (env.dev 0).val = RES_OK ∨ flag opts opt_f = true
  · cases filename with
    | none =>
      rw [run_query env opts hV h0]
      by_cases h1 : (env.dev 1).val = 32 ∨ flag opts opt_f = true
      · by_cases h2 : (env.dev 2).val = 20 ∨ flag opts opt_f = true
        · rw [if_pos h1, if_pos h2]
          exact ⟨_, _, _, rfl, rfl, Shape.queryDone⟩
        · rw [if_pos h1, if_neg h2]
          exact ⟨_, _, _, rfl, rfl, Shape.queryRead _ _ _⟩
      · rw [if_neg h1]
        exact ⟨_, _, _, rfl, rfl, Shape.queryInfo _ _ _⟩
    | some name =>
      cases hopen : env.fopen with
      | none =>
        have hrej : ∀ f, env.fopen = some f → ¬ validLength opts (readSize opts f) := by
          intro f hf; rw [hopen] at hf; exact Option.noConfusion hf
        rw [run_rejected env opts name hV h0 hrej, hopen]
        exact ⟨_, _, [], rfl, by simp [State.after, State.init], Shape.noFile name hopen⟩
      | some f =>
        by_cases hvalid : validLength opts (readSize opts f)
        · cases hB : flag opts opt_B with
          | false =>
            rcases first_failure (fun j => (env.dev j).val = RES_OK ∨ flag opts opt_f = true)
              (nchunks (readSize opts f)) with h | ⟨m, hm, hlt, hbad⟩
            · rw [run_fw_ok env opts name f hV hB hopen hvalid h]
              exact ⟨_, _, _, rfl, by simp [State.after, State.init],
                Shape.fwDone name f hopen hvalid hB⟩
            · cases m with
              | zero => exact absurd h0 hbad
              | succ m =>
                rw [run_fw_abort env opts name f m hV hB hopen hvalid (by omega)
                  (fun j hj => hlt j (by omega)) hbad]
                exact ⟨_, _, _, rfl, by simp [State.after, State.init],
                  Shape.fwAbort name f m _ _ _ hopen hvalid hB (by omega)⟩
          | true =>
            rcases first_failure (fun j => (env.dev j).val = RES_OK ∨ flag opts opt_f = true)
              (nchunks (readSize opts f) + 1) with h | ⟨m, hm, hlt, hbad⟩
            · rw [run_bl_ok env opts name f hV hB hopen hvalid h]
              exact ⟨_, _, _, rfl, by simp [State.after, State.init],
                Shape.blDone name f hopen hvalid hB⟩
            · cases m with
              | zero => exact absurd h0 hbad
              | succ m =>
                by_cases hmn : m < nchunks (readSize opts f)
                · rw [run_bl_abort env opts name f m hV hB hopen hvalid hmn
                    (fun j hj => hlt j (by omega)) hbad]
                  exact ⟨_, _, _, rfl, by simp [State.after, State.init],
                    Shape.blAbort name f m _ _ _ hopen hvalid hB hmn⟩
                · have hmn2 : m = nchunks (readSize opts f) := by omega
                  subst hmn2
                  rw [run_bl_abort_last env opts name f hV hB hopen hvalid
                    (fun j hj => hlt j (by omega)) hbad]
                  exact ⟨_, _, _, rfl, by simp [State.after, State.init],
                    Shape.blAbortLast name f _ _ _ hopen hvalid hB⟩
        · have hrej : ∀ f2, env.fopen = some f2 → ¬ validLength opts (readSize opts f2) := by
            intro f2 hf; rw [hopen] at hf; cases hf; exact hvalid
          rw [run_rejected env opts name hV h0 hrej, hopen]
          by_cases hne : readSize opts f = 0 ∧ f.error = true
          · simp only [if_pos hne]
            exact ⟨_, _, [], rfl, by simp [State.after, State.init],
              Shape.failedRead name f hopen hne.1 hne.2⟩
          · simp only [if_neg hne]
            exact ⟨_, _, [], rfl, by simp [State.after, State.init],
              Shape.invalid name f hopen hvalid⟩
  · rw [run_probe_abort env opts filename hV h0]
    exact ⟨_, _, [], rfl, by simp [State.after, State.init], Shape.probe _ _ _ _⟩

/-! ## The claims, continued -/

/-- C12: the query sequence.  When no image filename is given and the probe check has
passed, the engine sends `Info` (1) and receives a record whose length is checked to be
32, under the mismatch policy of `checkres`; byte 0 of the record, unsigned, is printed
as the bootloader revision; it then sends `Read` (2), the integers 0 (block number) and
4 (length code, `(4 + 1) * 4 = 20`), and receives a record whose length is checked to be
20 under the same policy.  At every stage the values sent are the first of `Probe`,
`Info`, `Read`, 0, 4 in this order; no `Write` and no data is sent, and 4 is only sent
as the length code. -/
theorem query_sequence (env : Env) (opts : Nat)
    (hV : flag opts opt_V = false)
    (h0 : (env.dev 0).val = RES_OK ∨ flag opts opt_f = true) :
    (((env.dev 1).val = 32 ∨ flag opts opt_f = true) →
      ((env.dev 2).val = 20 ∨ flag opts opt_f = true) →
      (run env opts none).exit? = some (.ret 0) ∧
      (run env opts none).state.trace =
        probeCalls ++ [.sendval 1, .recvdata, .sendval 2, .sendval 0, .sendval 4,
          .recvdata, .close] ∧
      (run env opts none).state.out =
        [.connecting, .fetching,
          .blRevision (((env.dev 1).data ++ env.blrest).getD 0 0).toNat,
          printFwInfo ((env.dev 2).data ++ env.fwrest)]) ∧
    (¬ ((env.dev 1).val = 32 ∨ flag opts opt_f = true) →
      (run env opts none).exit? = some (.errx "Error reading data" (env.dev 1).val 32) ∧
      (run env opts none).state.trace = probeCalls ++ [.sendval 1, .recvdata]) ∧
    (((env.dev 1).val = 32 ∨ flag opts opt_f = true) →
      ¬ ((env.dev 2).val = 20 ∨ flag opts opt_f = true) →
      (run env opts none).exit? = some (.errx "Error reading data" (env.dev 2).val 20) ∧
      (run env opts none).state.trace =
        probeCalls ++ [.sendval 1, .recvdata, .sendval 2, .sendval 0, .sendval 4,
          .recvdata]) ∧
    ((env.dev 1).data.length = 32 →
      ((env.dev 1).data ++ env.blrest).getD 0 0 = (env.dev 1).data.getD 0 0) ∧
    (run env opts none).state.trace.filter Event.isSend <+:
      [.sendval 0, .sendval 1, .sendval 2, .sendval 0, .sendval 4] ∧
    ((4 + 1) * 4 = (20 : Int)) := by
  have hq := run_query env opts hV h0
  refine ⟨?_, ?_, ?_, ?_, ?_, by decide⟩
  · intro h1 h2
    rw [hq, if_pos h1, if_pos h2]
    exact ⟨rfl, rfl, rfl⟩
  · intro h1
    rw [hq, if_neg h1]
    exact ⟨rfl, rfl⟩
  · intro h1 h2
    rw [hq, if_pos h1, if_neg h2]
    exact ⟨rfl, rfl⟩
  · intro hlen
    exact List.getD_append _ _ _ _ (by omega)
  · rw [hq]
    by_cases h1 : (env.dev 1).val = 32 ∨ flag opts opt_f = true
    · by_cases h2 : (env.dev 2).val = 20 ∨ flag opts opt_f = true
      · rw [if_pos h1, if_pos h2]
        exact ⟨[], rfl⟩
      · rw [if_pos h1, if_neg h2]
        exact ⟨[], rfl⟩
    · rw [if_neg h1]
      exact ⟨[.sendval 2, .sendval 0, .sendval 4], rfl⟩

/-- C12 (witness): a query on a device that answers 32 bytes to `Info` and 20 bytes to
`Read`. -/
theorem query_sequence_witness :
    (run envName16 0 none).exit? = some (.ret 0) ∧
    (run envName16 0 none).state.trace =
      [.openserial, .sendval 0, .recvval, .sendval 1, .recvdata, .sendval 2, .sendval 0,
        .sendval 4, .recvdata, .close] ∧
    (run envName16 0 none).state.out =
      [.connecting, .fetching,
        .blRevision (((envName16.dev 1).data ++ envName16.blrest).getD 0 0).toNat,
        printFwInfo ((envName16.dev 2).data ++ envName16.fwrest)] :=
  (query_sequence envName16 0 rfl (Or.inl rfl)).1 (Or.inl rfl) (Or.inl rfl)

theorem payloads_append (t1 t2 : List Event) :
    payloads (t1 ++ t2) = payloads t1 ++ payloads t2 := by
  simp [payloads, List.filterMap_append]

theorem chunkOffsets_append (t1 t2 : List Event) :
    chunkOffsets (t1 ++ t2) = chunkOffsets t1 ++ chunkOffsets t2 := by
  simp [chunkOffsets, List.filterMap_append]

theorem payloads_fwCalls (data : List UInt8) (size : Int) (m : Nat) :
    payloads ((List.range m).flatMap (fwCalls data size)) =
      (List.range m).map (chunkBytes data size) := by
  induction m with
  | zero => simp [payloads]
  | succ m ih =>
    rw [List.range_succ, List.flatMap_append, payloads_append, ih, List.map_append]
    simp [payloads, fwCalls, chunkCall, chunkBytes]

theorem payloads_blCalls (data : List UInt8) (size : Int) (m : Nat) :
    payloads ((List.range m).flatMap (blCalls data size)) =
      (List.range m).map (chunkBytes data size) := by
  induction m with
  | zero => simp [payloads]
  | succ m ih =>
    rw [List.range_succ, List.flatMap_append, payloads_append, ih, List.map_append]
    simp [payloads, blCalls, chunkCall, chunkBytes]

theorem chunkOffsets_fwCalls (data : List UInt8) (size : Int) (m : Nat) :
    chunkOffsets ((List.range m).flatMap (fwCalls data size)) =
      (List.range m).map (fun (k : Nat) => 1024 * (k : Int)) := by
  induction m with
  | zero => simp [chunkOffsets]
  | succ m ih =>
    rw [List.range_succ, List.flatMap_append, chunkOffsets_append, ih, List.map_append]
    simp [chunkOffsets, fwCalls, chunkCall]

theorem chunkOffsets_blCalls (data : List UInt8) (size : Int) (m : Nat) :
    chunkOffsets ((List.range m).flatMap (blCalls data size)) =
      (List.range m).map (fun (k : Nat) => 1024 * (k : Int)) := by
  induction m with
  | zero => simp [chunkOffsets]
  | succ m ih =>
    rw [List.range_succ, List.flatMap_append, chunkOffsets_append, ih, List.map_append]
    simp [chunkOffsets, blCalls, chunkCall]

/-- The first `m` chunks, one after the other, are the first `1024 * m` bytes of the
image. -/
theorem chunkBytes_flatten (data : List UInt8) (size : Int) (hlen : (data.length : Int) = size) :
    ∀ m, m ≤ nchunks size →
      ((List.range m).map (chunkBytes data size)).flatten = data.take (1024 * m) := by
  intro m
  induction m with
  | zero => intro _; simp
  | succ m ih =>
    intro hm
    have h1 : 1024 * (m : Int) < size := (lt_size_iff size m).2 (by omega)
    have h2 : (1024 * (m : Int)).toNat = 1024 * m := by omega
    have hchunk : chunkBytes data size m = (data.drop (1024 * m)).take 1024 := by
      unfold chunkBytes
      rw [h2, maxlen_eq_min, List.take_eq_take, List.length_drop]
      omega
    rw [List.range_succ, List.map_append, List.flatten_append, ih (by omega)]
    simp only [List.map_cons, List.map_nil, List.flatten_cons, List.flatten_nil,
      List.append_nil]
    rw [hchunk, Nat.mul_add, Nat.mul_one, List.take_add]

theorem readData_length (opts : Nat) (f : FileStream) :
    ((readData opts f).length : Int) = readSize opts f := rfl

/-- In a run on an accepted image, the chunks sent are the first `m` chunks of the image
for some `m` up to the number of chunks, all of them when the run returns 0. -/
theorem shape_chunks (env : Env) (opts : Nat) (name : String) (f : FileStream) (e : Exit)
    (rest : List Event) (hs : Shape env opts (some name) e rest)
    (hopen : env.fopen = some f) (hvalid : validLength opts (readSize opts f)) :
    ∃ m, m ≤ nchunks (readSize opts f) ∧
      chunkOffsets rest = (List.range m).map (fun (k : Nat) => 1024 * (k : Int)) ∧
      payloads rest = (List.range m).map (chunkBytes (readData opts f) (readSize opts f)) ∧
      (e = .ret 0 → m = nchunks (readSize opts f)) := by
  cases hs with
  | probe msg res val =>
    exact ⟨0, Nat.zero_le _, rfl, rfl, fun h => Exit.noConfusion h⟩
  | noFile _ h => rw [hopen] at h; exact Option.noConfusion h
  | failedRead _ f2 h hz _ =>
    rw [hopen] at h; cases h
    unfold validLength at hvalid; omega
  | invalid _ f2 h hnv => rw [hopen] at h; cases h; exact absurd hvalid hnv
  | fwAbort _ f2 m msg res val h _ _ hm =>
    rw [hopen] at h; cases h
    exact ⟨m + 1, hm, chunkOffsets_fwCalls _ _ _, payloads_fwCalls _ _ _,
      fun h => Exit.noConfusion h⟩
  | fwDone _ f2 h _ _ =>
    rw [hopen] at h; cases h
    refine ⟨nchunks (readSize opts f), le_refl _, ?_, ?_, fun _ => rfl⟩
    · rw [chunkOffsets_append, chunkOffsets_fwCalls]; simp [chunkOffsets]
    · rw [payloads_append, payloads_fwCalls]; simp [payloads]
  | blAbort _ f2 m msg res val h _ _ hm =>
    rw [hopen] at h; cases h
    refine ⟨m + 1, hm, ?_, ?_, fun h => Exit.noConfusion h⟩
    · rw [chunkOffsets_append, chunkOffsets_blCalls]; simp [chunkOffsets]
    · rw [payloads_append, payloads_blCalls]; simp [payloads]
  | blAbortLast _ f2 msg res val h _ _ =>
    rw [hopen] at h; cases h
    refine ⟨nchunks (readSize opts f), le_refl _, ?_, ?_, fun _ => rfl⟩
    · rw [chunkOffsets_append, chunkOffsets_append, chunkOffsets_blCalls]
      simp [chunkOffsets]
    · rw [payloads_append, payloads_append, payloads_blCalls]; simp [payloads]
  | blDone _ f2 h _ _ =>
    rw [hopen] at h; cases h
    refine ⟨nchunks (readSize opts f), le_refl _, ?_, ?_, fun _ => rfl⟩
    · rw [chunkOffsets_append, chunkOffsets_append, chunkOffsets_blCalls]
      simp [chunkOffsets]
    · rw [payloads_append, payloads_append, payloads_blCalls]; simp [payloads]

/-- C14: the data transferred is faithful to the image.  For both update targets and
every accepted image, in a run all of whose checks pass: the run returns 0, the chunks
are sent at the offsets 0, 1024, 2048, ... in this order, one for each of the
`ceil(length / 1024)` chunks, and the payloads of the data sends, one after the other in
the order sent, are exactly the image bytes `data[0:length]`, the bytes read from the
file.  Whatever another device answers, the chunks it is sent are the first `m` chunks
in the same order and their payloads together are the first `1024 * m` bytes of the
image: no byte is skipped, duplicated, reordered or added. -/
theorem transfer_faithful (env : Env) (opts : Nat) (name : String) (f : FileStream)
    (hV : flag opts opt_V = false)
    (hopen : env.fopen = some f) (hvalid : validLength opts (readSize opts f))
    (hp : ∀ j, (env.dev j).val = RES_OK ∨ flag opts opt_f = true) :
    readData opts f = f.bytes.take (readSize opts f).toNat ∧
    (run env opts (some name)).exit? = some (.ret 0) ∧
    chunkOffsets (run env opts (some name)).state.trace =
      (List.range (nchunks (readSize opts f))).map (fun (k : Nat) => 1024 * (k : Int)) ∧
    (payloads (run env opts (some name)).state.trace).flatten = readData opts f ∧
    (∀ env2 : Env, env2.fopen = some f →
      ∃ m, m ≤ nchunks (readSize opts f) ∧
        chunkOffsets (run env2 opts (some name)).state.trace =
          (List.range m).map (fun (k : Nat) => 1024 * (k : Int)) ∧
        (payloads (run env2 opts (some name)).state.trace).flatten =
          (readData opts f).take (1024 * m)) := by
  have hdata : readData opts f = f.bytes.take (readSize opts f).toNat := by
    unfold readSize readData
    rw [List.length_take, Int.toNat_ofNat, List.take_eq_take]
    omega
  have hgen : ∀ env2 : Env, env2.fopen = some f →
      ∃ m, m ≤ nchunks (readSize opts f) ∧
        chunkOffsets (run env2 opts (some name)).state.trace =
          (List.range m).map (fun (k : Nat) => 1024 * (k : Int)) ∧
        (payloads (run env2 opts (some name)).state.trace).flatten =
          (readData opts f).take (1024 * m) ∧
        ((run env2 opts (some name)).exit? = some (.ret 0) →
          m = nchunks (readSize opts f)) := by
    intro env2 hopen2
    obtain ⟨e, st, rest, hrun, htr, hs⟩ := run_shape env2 opts (some name) hV
    obtain ⟨m, hm, hoff, hpay, hret⟩ :=
      shape_chunks env2 opts name f e rest hs hopen2 hvalid
    have hflat := chunkBytes_flatten (readData opts f) (readSize opts f)
      (readData_length opts f) m hm
    have htrace : (run env2 opts (some name)).state.trace = probeCalls ++ rest := by
      rw [hrun]; exact htr
    have hpl : payloads (run env2 opts (some name)).state.trace = payloads rest := by
      rw [htrace, payloads_append]; rfl
    have ho : chunkOffsets (run env2 opts (some name)).state.trace = chunkOffsets rest := by
      rw [htrace, chunkOffsets_append]; rfl
    refine ⟨m, hm, by rw [ho, hoff], by rw [hpl, hpay, hflat], ?_⟩
    intro hex
    rw [hrun] at hex
    simp only [Res.exit?, Option.some.injEq] at hex
    exact hret hex
  have hexit : (run env opts (some name)).exit? = some (.ret 0) :=
    (run_complete env opts (some name) (fun _ _ => ⟨f, hopen, hvalid⟩)
      (fun j => by unfold passes; rw [expected_some]; exact hp j)).1
  obtain ⟨m, _, hoff, hpay, hret⟩ := hgen env hopen
  have hmn := hret hexit
  subst hmn
  refine ⟨hdata, hexit, hoff, ?_, ?_⟩
  · rw [hpay]
    apply List.take_of_length_le
    have h1 := readData_length opts f
    have h2 := (nchunks_ceil (readSize opts f) hvalid.1).2
    omega
  · intro env2 hopen2
    obtain ⟨m2, hm2, hoff2, hpay2, _⟩ := hgen env2 hopen2
    exact ⟨m2, hm2, hoff2, hpay2⟩

/-- C14 (witness): the image of 1028 bytes, sent as firmware and as bootloader to a
device that acknowledges everything: two chunks at the offsets 0 and 1024, whose
payloads together are the 1028 bytes of the image. -/
theorem transfer_faithful_witness :
    ((run env1028 0 (some "fw.bin")).exit? = some (.ret 0) ∧
      chunkOffsets (run env1028 0 (some "fw.bin")).state.trace = [0, 1024] ∧
      (payloads (run env1028 0 (some "fw.bin")).state.trace).flatten =
        List.replicate 1028 7) ∧
    ((run env1028 2 (some "boot.bin")).exit? = some (.ret 0) ∧
      chunkOffsets (run env1028 2 (some "boot.bin")).state.trace = [0, 1024] ∧
      (payloads (run env1028 2 (some "boot.bin")).state.trace).flatten =
        List.replicate 1028 7) := by
  have hcap0 : capacity 0 = 26624 := by decide
  have hcap2 : capacity 2 = 4096 := by decide
  have hsz0 : readSize 0 ⟨List.replicate 1028 7, false⟩ = 1028 := by
    simp only [readSize, readData, hcap0, List.length_take, List.length_replicate]
    decide
  have hsz2 : readSize 2 ⟨List.replicate 1028 7, false⟩ = 1028 := by
    simp only [readSize, readData, hcap2, List.length_take, List.length_replicate]
    decide
  have hdata0 : readData 0 ⟨List.replicate 1028 7, false⟩ = List.replicate 1028 7 := by
    simp only [readData, hcap0, List.take_replicate]
    rfl
  have hdata2 : readData 2 ⟨List.replicate 1028 7, false⟩ = List.replicate 1028 7 := by
    simp only [readData, hcap2, List.take_replicate]
    rfl
  have hn : nchunks 1028 = 2 := by decide
  have r2 : (List.range 2).map (fun (k : Nat) => 1024 * (k : Int)) = [0, 1024] := by decide
  have h0 := transfer_faithful env1028 0 "fw.bin" ⟨List.replicate 1028 7, false⟩
    rfl rfl (by rw [validLength, hsz0]; decide) (fun _ => Or.inl rfl)
  have h2 := transfer_faithful env1028 2 "boot.bin" ⟨List.replicate 1028 7, false⟩
    rfl rfl (by rw [validLength, hsz2]; decide) (fun _ => Or.inl rfl)
  rw [hsz0, hdata0, hn, r2] at h0
  rw [hsz2, hdata2, hn, r2] at h2
  exact ⟨⟨h0.2.1, h0.2.2.1, h0.2.2.2.1⟩, ⟨h2.2.1, h2.2.2.1, h2.2.2.2.1⟩⟩

theorem mem_fwCalls_senddata (data : List UInt8) (size : Int) (m : Nat) (off len : Int)
    (b : List UInt8)
    (h : Event.senddata off len b ∈ (List.range m).flatMap (fwCalls data size)) :
    ∃ k, k < m ∧ Event.senddata off len b = chunkCall data size k := by
  rw [List.mem_flatMap] at h
  obtain ⟨k, hk, hmem⟩ := h
  refine ⟨k, List.mem_range.1 hk, ?_⟩
  simp only [fwCalls, List.mem_cons, List.mem_singleton, List.not_mem_nil, or_false] at hmem
  rcases hmem with h | h | h | h
  · exact Event.noConfusion h
  · exact Event.noConfusion h
  · exact h
  · exact Event.noConfusion h

theorem mem_blCalls_senddata (data : List UInt8) (size : Int) (m : Nat) (off len : Int)
    (b : List UInt8)
    (h : Event.senddata off len b ∈ (List.range m).flatMap (blCalls data size)) :
    ∃ k, k < m ∧ Event.senddata off len b = chunkCall data size k := by
  rw [List.mem_flatMap] at h
  obtain ⟨k, hk, hmem⟩ := h
  refine ⟨k, List.mem_range.1 hk, ?_⟩
  simp only [blCalls, List.mem_cons, List.mem_singleton, List.not_mem_nil, or_false] at hmem
  rcases hmem with h | h
  · exact h
  · exact Event.noConfusion h

/-- Every `senddata` call of a run is the call of one of the chunks of the accepted
image. -/
theorem shape_senddata (env : Env) (opts : Nat) (filename : Option String) (e : Exit)
    (rest : List Event) (hs : Shape env opts filename e rest) (off len : Int)
    (b : List UInt8) (hmem : Event.senddata off len b ∈ rest) :
    ∃ f k, env.fopen = some f ∧ validLength opts (readSize opts f) ∧
      k < nchunks (readSize opts f) ∧
      Event.senddata off len b = chunkCall (readData opts f) (readSize opts f) k := by
  cases hs with
  | probe msg res val => exact absurd hmem (List.not_mem_nil _)
  | noFile _ h => exact absurd hmem (List.not_mem_nil _)
  | failedRead _ f2 h hz _ => exact absurd hmem (List.not_mem_nil _)
  | invalid _ f2 h hnv => exact absurd hmem (List.not_mem_nil _)
  | queryInfo msg res val => simp at hmem
  | queryRead msg res val => simp [queryCalls] at hmem
  | queryDone => simp [queryCalls] at hmem
  | fwAbort _ f m msg res val h hv _ hm =>
    obtain ⟨k, hk, heq⟩ := mem_fwCalls_senddata _ _ _ _ _ _ hmem
    exact ⟨f, k, h, hv, by omega, heq⟩
  | fwDone _ f h hv _ =>
    rw [List.mem_append] at hmem
    rcases hmem with hmem | hmem
    · obtain ⟨k, hk, heq⟩ := mem_fwCalls_senddata _ _ _ _ _ _ hmem
      exact ⟨f, k, h, hv, hk, heq⟩
    · simp at hmem
  | blAbort _ f m msg res val h hv _ hm =>
    rw [List.mem_append] at hmem
    rcases hmem with hmem | hmem
    · simp at hmem
    · obtain ⟨k, hk, heq⟩ := mem_blCalls_senddata _ _ _ _ _ _ hmem
      exact ⟨f, k, h, hv, by omega, heq⟩
  | blAbortLast _ f msg res val h hv _ =>
    rw [List.mem_append, List.mem_append] at hmem
    rcases hmem with (hmem | hmem) | hmem
    · simp at hmem
    · obtain ⟨k, hk, heq⟩ := mem_blCalls_senddata _ _ _ _ _ _ hmem
      exact ⟨f, k, h, hv, hk, heq⟩
    · simp at hmem
  | blDone _ f h hv _ =>
    rw [List.mem_append, List.mem_append] at hmem
    rcases hmem with (hmem | hmem) | hmem
    · simp at hmem
    · obtain ⟨k, hk, heq⟩ := mem_blCalls_senddata _ _ _ _ _ _ hmem
      exact ⟨f, k, h, hv, hk, heq⟩
    · simp at hmem

/-- Every `senddata` call in the trace of a run is the call of one of the chunks of the
accepted image. -/
theorem run_senddata (env : Env) (opts : Nat) (filename : Option String) (off len : Int)
    (b : List UInt8)
    (hmem : Event.senddata off len b ∈ (run env opts filename).state.trace) :
    ∃ f k, env.fopen = some f ∧ validLength opts (readSize opts f) ∧
      k < nchunks (readSize opts f) ∧
      Event.senddata off len b = chunkCall (readData opts f) (readSize opts f) k := by
  cases hV : flag opts opt_V with
  | true =>
    rw [run_version env opts filename hV] at hmem
    simp [Res.state, State.after, State.init] at hmem
  | false =>
    obtain ⟨e, st, rest, hrun, htr, hs⟩ := run_shape env opts filename hV
    rw [hrun] at hmem
    simp only [Res.state] at hmem
    rw [htr, List.mem_append] at hmem
    rcases hmem with hmem | hmem
    · simp [probeCalls] at hmem
    · exact shape_senddata env opts filename e rest hs off len b hmem

theorem chunkBytes_length (data : List UInt8) (size : Int) (k : Nat)
    (hlen : (data.length : Int) = size) (hk : k < nchunks size) :
    (((chunkBytes data size k).length : Nat) : Int) = maxlen (1024 * (k : Int)) size := by
  have h1 : 1024 * (k : Int) < size := (lt_size_iff size k).2 hk
  unfold chunkBytes
  rw [List.length_take, List.length_drop, maxlen_eq_min]
  omega

/-- C17: every chunk lies inside the image.  For every `size > 0` and every `pos` in
0, 1024, 2048, ... with `pos < size`: `maxlen(pos, size) = min(1024, size - pos)`,
`0 < maxlen(pos, size) <= 1024` and `pos + maxlen(pos, size) <= size`, and the chunk read
at `pos` has all its `maxlen(pos, size)` bytes inside a buffer of `size` bytes.  So every
`senddata(fd, data + off, len)` of every run has `0 <= off`, `0 < len` and
`off + len <=` the number of bytes read from the file, and sends exactly the bytes
`data[off : off + len]`. -/
theorem chunk_inside_image (size : Int) (k : Nat) (_hsize : 0 < size)
    (hpos : 1024 * (k : Int) < size) :
    maxlen (1024 * (k : Int)) size = min 1024 (size - 1024 * (k : Int)) ∧
    0 < maxlen (1024 * (k : Int)) size ∧
    maxlen (1024 * (k : Int)) size ≤ 1024 ∧
    1024 * (k : Int) + maxlen (1024 * (k : Int)) size ≤ size ∧
    (∀ data : List UInt8, (data.length : Int) = size →
      ((chunkBytes data size k).length : Int) = maxlen (1024 * (k : Int)) size) ∧
    (∀ (env : Env) (opts : Nat) (filename : Option String) (off len : Int) (b : List UInt8),
      Event.senddata off len b ∈ (run env opts filename).state.trace →
      ∃ f, env.fopen = some f ∧ 0 ≤ off ∧ 0 < len ∧ off + len ≤ readSize opts f ∧
        (b.length : Int) = len ∧
        b = ((readData opts f).drop off.toNat).take len.toNat) := by
  have hm := maxlen_eq_min (1024 * (k : Int)) size
  refine ⟨hm, by omega, by omega, by omega, ?_, ?_⟩
  · intro data hlen
    exact chunkBytes_length data size k hlen ((lt_size_iff size k).1 hpos)
  · intro env opts filename off len b hmem
    obtain ⟨f, j, hopen, _, hj, heq⟩ := run_senddata env opts filename off len b hmem
    unfold chunkCall at heq
    injection heq with h1 h2 h3
    have hjlt : 1024 * (j : Int) < readSize opts f := (lt_size_iff _ j).2 hj
    have hlen := chunkBytes_length (readData opts f) (readSize opts f) j
      (readData_length opts f) hj
    have hmj := maxlen_eq_min (1024 * (j : Int)) (readSize opts f)
    refine ⟨f, hopen, by omega, by omega, by omega, ?_, ?_⟩
    · rw [h3, h2]; exact hlen
    · rw [h3, h1, h2]

/-- C17 (witness): the second chunk of an image of 1028 bytes, at offset 1024, has 4
bytes and ends at 1028. -/
theorem chunk_inside_image_witness :
    maxlen (1024 * ((1 : Nat) : Int)) 1028 = min 1024 (1028 - 1024 * ((1 : Nat) : Int)) ∧
    0 < maxlen (1024 * ((1 : Nat) : Int)) 1028 ∧
    maxlen (1024 * ((1 : Nat) : Int)) 1028 ≤ 1024 ∧
    1024 * ((1 : Nat) : Int) + maxlen (1024 * ((1 : Nat) : Int)) 1028 ≤ 1028 :=
  ⟨(chunk_inside_image 1028 1 (by decide) (by decide)).1,
    (chunk_inside_image 1028 1 (by decide) (by decide)).2.1,
    (chunk_inside_image 1028 1 (by decide) (by decide)).2.2.1,
    (chunk_inside_image 1028 1 (by decide) (by decide)).2.2.2.1⟩

/-- C19: for every accepted image (`0 < length < capacity`, `length % 4 == 0`), in either
update mode and whatever the device answers, every chunk has a length
`maxlen(pos, length)` that is a multiple of 4 between 4 and 1024 inclusive, and so has the
`len` of every `senddata` call of the run, which sends exactly `len` bytes. -/
theorem chunk_multiple_of_four (env : Env) (opts : Nat) (name : String) (f : FileStream)
    (hopen : env.fopen = some f) (hvalid : validLength opts (readSize opts f)) :
    (∀ k, k < nchunks (readSize opts f) →
      maxlen (1024 * (k : Int)) (readSize opts f) % 4 = 0 ∧
      4 ≤ maxlen (1024 * (k : Int)) (readSize opts f) ∧
      maxlen (1024 * (k : Int)) (readSize opts f) ≤ 1024) ∧
    (∀ (off len : Int) (b : List UInt8),
      Event.senddata off len b ∈ (run env opts (some name)).state.trace →
      len % 4 = 0 ∧ 4 ≤ len ∧ len ≤ 1024 ∧ (b.length : Int) = len) := by
  have harith : ∀ k, k < nchunks (readSize opts f) →
      maxlen (1024 * (k : Int)) (readSize opts f) % 4 = 0 ∧
      4 ≤ maxlen (1024 * (k : Int)) (readSize opts f) ∧
      maxlen (1024 * (k : Int)) (readSize opts f) ≤ 1024 := by
    intro k hk
    have h1 : 1024 * (k : Int) < readSize opts f := (lt_size_iff _ k).2 hk
    have h4 := hvalid.2.2
    rw [maxlen_eq_min]
    omega
  refine ⟨harith, ?_⟩
  intro off len b hmem
  obtain ⟨f2, j, hopen2, _, hj, heq⟩ := run_senddata env opts (some name) off len b hmem
  rw [hopen] at hopen2
  cases hopen2
  unfold chunkCall at heq
  injection heq with h1 h2 h3
  have hlen := chunkBytes_length (readData opts f) (readSize opts f) j
    (readData_length opts f) hj
  have ha := harith j hj
  rw [h2]
  refine ⟨ha.1, ha.2.1, ha.2.2, ?_⟩
  rw [h3]; exact hlen

/-- C19 (witness): the firmware update of the 8-byte image. -/
theorem chunk_multiple_of_four_witness :
    (∀ k, k < nchunks (readSize 0 file8) →
      maxlen (1024 * (k : Int)) (readSize 0 file8) % 4 = 0 ∧
      4 ≤ maxlen (1024 * (k : Int)) (readSize 0 file8) ∧
      maxlen (1024 * (k : Int)) (readSize 0 file8) ≤ 1024) ∧
    (∀ (off len : Int) (b : List UInt8),
      Event.senddata off len b ∈ (run env8 0 (some "fw.bin")).state.trace →
      len % 4 = 0 ∧ 4 ≤ len ∧ len ≤ 1024 ∧ (b.length : Int) = len) :=
  chunk_multiple_of_four env8 0 "fw.bin" file8 rfl (by decide)

/-- C20: progress arithmetic.  For every accepted image of length `L` (`0 < L < 26624`)
and every chunk offset `pos = 1024k < L`: the product `pos * 100` of line 124/133 is
below `2^31` (no signed 32-bit overflow), the progress printed `pos * 100 / L` is
`floor(100 * pos / L)` (the `p` with `p * L <= 100 * pos < (p + 1) * L`), lies in
`0 .. 99`, is 0 for the first chunk, and does not decrease from chunk to chunk. -/
theorem progress_arithmetic (L : Int) (k : Nat) (hL : 0 < L) (hcap : L < 26624)
    (hk : 1024 * (k : Int) < L) :
    (0 ≤ 1024 * (k : Int) * 100 ∧ 1024 * (k : Int) * 100 < 2 ^ 31) ∧
    progressLine L k = .progress (Int.tdiv (1024 * (k : Int) * 100) L) ∧
    Int.tdiv (1024 * (k : Int) * 100) L = Int.fdiv (100 * (1024 * (k : Int))) L ∧
    (Int.tdiv (1024 * (k : Int) * 100) L * L ≤ 100 * (1024 * (k : Int)) ∧
      100 * (1024 * (k : Int)) < (Int.tdiv (1024 * (k : Int) * 100) L + 1) * L) ∧
    (0 ≤ Int.tdiv (1024 * (k : Int) * 100) L ∧ Int.tdiv (1024 * (k : Int) * 100) L ≤ 99) ∧
    Int.tdiv (1024 * ((0 : Nat) : Int) * 100) L = 0 ∧
    (∀ j : Nat, j ≤ k →
      Int.tdiv (1024 * (j : Int) * 100) L ≤ Int.tdiv (1024 * (k : Int) * 100) L) ∧
    (∀ (env : Env) (opts : Nat) (name : String) (f : FileStream),
      flag opts opt_V = false → env.fopen = some f → readSize opts f = L →
      validLength opts (readSize opts f) →
      (∀ j, (env.dev j).val = RES_OK ∨ flag opts opt_f = true) →
      (run env opts (some name)).state.out =
        [.connecting,
          if flag opts opt_B = true then .updatingBootloader else .updatingFirmware] ++
        (List.range (nchunks L)).map (progressLine L) ++ [.done]) := by
  have hnn : ∀ j : Nat, 0 ≤ 1024 * (j : Int) * 100 := by intro j; omega
  have hed : ∀ j : Nat, Int.tdiv (1024 * (j : Int) * 100) L = (1024 * (j : Int) * 100) / L :=
    fun j => Int.tdiv_eq_ediv (hnn j) (Int.le_of_lt hL)
  have hcomm : 100 * (1024 * (k : Int)) = 1024 * (k : Int) * 100 := by ring
  refine ⟨⟨hnn k, by omega⟩, rfl, ?_, ⟨?_, ?_⟩, ⟨?_, ?_⟩, ?_, ?_, ?_⟩
  · rw [hcomm, hed, Int.fdiv_eq_ediv _ (Int.le_of_lt hL)]
  · rw [hcomm, hed]
    exact Int.ediv_mul_le _ (Int.ne_of_gt hL)
  · rw [hcomm, hed]
    exact Int.lt_ediv_add_one_mul_self _ hL
  · rw [hed]
    exact Int.ediv_nonneg (hnn k) (Int.le_of_lt hL)
  · rw [hed]
    have : (1024 * (k : Int) * 100) / L < 100 :=
      Int.ediv_lt_of_lt_mul hL (by omega)
    omega
  · rw [hed]
    simp
  · intro j hj
    rw [hed, hed]
    exact Int.ediv_le_ediv hL (by omega)
  · intro env opts name f hV hopen hsz hvalid hp
    subst hsz
    cases hB : flag opts opt_B with
    | true =>
      rw [run_bl_ok env opts name f hV hB hopen hvalid (fun j _ => hp j)]
      simp [Res.state, State.after, State.init]
    | false =>
      rw [run_fw_ok env opts name f hV hB hopen hvalid (fun j _ => hp j)]
      simp [Res.state, State.after, State.init]

/-- C20 (witness): the second chunk of an image of 1028 bytes is reported at 99 percent. -/
theorem progress_arithmetic_witness :
    progressLine 1028 1 = .progress 99 ∧
    (0 ≤ Int.tdiv (1024 * ((1 : Nat) : Int) * 100) 1028 ∧
      Int.tdiv (1024 * ((1 : Nat) : Int) * 100) 1028 ≤ 99) :=
  ⟨(progress_arithmetic 1028 1 (by decide) (by decide) (by decide)).2.1,
    (progress_arithmetic 1028 1 (by decide) (by decide) (by decide)).2.2.2.2.1⟩

/-- C18: if the image is rejected, that is the run ends with the "Invalid image" error or
with the file I/O error `err(1, filename)`, then the transport calls of the run are the
connection opened and the probe exchange and nothing else: no `Update`, no `Write`, no
block number and no image byte is sent, whatever the options (ForceMode, target) are.
And whenever the loader would reject the file, a run with a filename makes no other
transport call, whether the probe check passes or not. -/
theorem rejected_only_probe (env : Env) (opts : Nat) (filename : Option String)
    (n : String)
    (h : (run env opts filename).exit? = some (.err n) ∨
      (run env opts filename).exit? = some (.invalidImage n)) :
    (run env opts filename).state.trace = [.openserial, .sendval 0, .recvval] ∧
    (run env opts filename).state.trace.filter Event.isSend = [.sendval CMD_PROBE] ∧
    (∀ e ∈ (run env opts filename).state.trace,
      e ≠ .sendval CMD_UPDATE ∧ e ≠ .sendval CMD_WRITE ∧
      ∀ off len b, e ≠ .senddata off len b) ∧
    (∀ name, flag opts opt_V = false →
      (∀ f, env.fopen = some f → ¬ validLength opts (readSize opts f)) →
      (run env opts (some name)).state.trace = [.openserial, .sendval 0, .recvval]) := by
  have htrace : (run env opts filename).state.trace = [.openserial, .sendval 0, .recvval] := by
    cases hV : flag opts opt_V with
    | true =>
      rw [run_version env opts filename hV] at h
      simp [Res.exit?] at h
    | false =>
      obtain ⟨e, st, rest, hrun, htr, hs⟩ := run_shape env opts filename hV
      rw [hrun] at h ⊢
      simp only [Res.exit?, Option.some.injEq] at h
      simp only [Res.state]
      rw [htr]
      cases hs with
      | probe msg res val => rfl
      | noFile _ _ => rfl
      | failedRead _ _ _ _ _ => rfl
      | invalid _ _ _ _ => rfl
      | queryInfo msg res val => simp at h
      | queryRead msg res val => simp at h
      | queryDone => simp at h
      | fwAbort _ _ _ _ _ _ _ _ _ _ => simp at h
      | fwDone _ _ _ _ _ => simp at h
      | blAbort _ _ _ _ _ _ _ _ _ _ => simp at h
      | blAbortLast _ _ _ _ _ _ _ _ => simp at h
      | blDone _ _ _ _ _ => simp at h
  refine ⟨htrace, by rw [htrace]; rfl, ?_, ?_⟩
  · intro e he
    rw [htrace] at he
    simp only [List.mem_cons, List.mem_singleton, List.not_mem_nil, or_false] at he
    rcases he with rfl | rfl | rfl
    · exact ⟨Event.noConfusion, Event.noConfusion, fun _ _ _ => Event.noConfusion⟩
    · exact ⟨by decide, by decide, fun _ _ _ => Event.noConfusion⟩
    · exact ⟨Event.noConfusion, Event.noConfusion, fun _ _ _ => Event.noConfusion⟩
  · intro name hV hrej
    by_cases h0 : (env.dev 0).val = RES_OK ∨ flag opts opt_f = true
    · rw [run_rejected env opts name hV h0 hrej]; rfl
    · rw [run_probe_abort env opts (some name) hV h0]; rfl

/-- C18 (witness): a firmware image file of 6 bytes is rejected; the run has made the
probe exchange only. -/
theorem rejected_only_probe_witness :
    (run envBad6 0 (some "fw.bin")).state.trace = [.openserial, .sendval 0, .recvval] ∧
    (run envBad6 0 (some "fw.bin")).state.trace.filter Event.isSend =
      [.sendval CMD_PROBE] :=
  ⟨(rejected_only_probe envBad6 0 (some "fw.bin") "fw.bin" (Or.inr (by decide))).1,
    (rejected_only_probe envBad6 0 (some "fw.bin") "fw.bin" (Or.inr (by decide))).2.1⟩

theorem fwCalls_io (data : List UInt8) (size : Int) (m : Nat) :
    ∀ x ∈ (List.range m).flatMap (fwCalls data size), x.isSend = true ∨ x.isRecv = true := by
  intro x hx
  rw [List.mem_flatMap] at hx
  obtain ⟨k, _, hmem⟩ := hx
  simp only [fwCalls, chunkCall, List.mem_cons, List.mem_singleton, List.not_mem_nil,
    or_false] at hmem
  rcases hmem with rfl | rfl | rfl | rfl
  · exact Or.inl rfl
  · exact Or.inl rfl
  · exact Or.inl rfl
  · exact Or.inr rfl

theorem blCalls_io (data : List UInt8) (size : Int) (m : Nat) :
    ∀ x ∈ (List.range m).flatMap (blCalls data size), x.isSend = true ∨ x.isRecv = true := by
  intro x hx
  rw [List.mem_flatMap] at hx
  obtain ⟨k, _, hmem⟩ := hx
  simp only [blCalls, chunkCall, List.mem_cons, List.mem_singleton, List.not_mem_nil,
    or_false] at hmem
  rcases hmem with rfl | rfl
  · exact Or.inl rfl
  · exact Or.inr rfl

/-- After the probe exchange a run makes only send and receive calls, followed by `close`
exactly when it returns 0. -/
theorem shape_body (env : Env) (opts : Nat) (filename : Option String) (e : Exit)
    (rest : List Event) (hs : Shape env opts filename e rest) :
    ∃ body, (∀ x ∈ body, x.isSend = true ∨ x.isRecv = true) ∧
      ((rest = body ∧ e ≠ .ret 0) ∨ (rest = body ++ [.close] ∧ e = .ret 0)) := by
  cases hs with
  | probe msg res val =>
    exact ⟨[], fun x hx => absurd hx (List.not_mem_nil _), Or.inl ⟨rfl, Exit.noConfusion⟩⟩
  | noFile _ _ =>
    exact ⟨[], fun x hx => absurd hx (List.not_mem_nil _), Or.inl ⟨rfl, Exit.noConfusion⟩⟩
  | failedRead _ _ _ _ _ =>
    exact ⟨[], fun x hx => absurd hx (List.not_mem_nil _), Or.inl ⟨rfl, Exit.noConfusion⟩⟩
  | invalid _ _ _ _ =>
    exact ⟨[], fun x hx => absurd hx (List.not_mem_nil _), Or.inl ⟨rfl, Exit.noConfusion⟩⟩
  | queryInfo msg res val =>
    exact ⟨_, by decide, Or.inl ⟨rfl, Exit.noConfusion⟩⟩
  | queryRead msg res val =>
    exact ⟨_, by decide, Or.inl ⟨rfl, Exit.noConfusion⟩⟩
  | queryDone =>
    exact ⟨queryCalls, by decide, Or.inr ⟨rfl, rfl⟩⟩
  | fwAbort _ f m msg res val _ _ _ _ =>
    exact ⟨_, fwCalls_io _ _ _, Or.inl ⟨rfl, Exit.noConfusion⟩⟩
  | fwDone _ f _ _ _ =>
    exact ⟨_, fwCalls_io _ _ _, Or.inr ⟨rfl, rfl⟩⟩
  | blAbort _ f m msg res val _ _ _ _ =>
    refine ⟨_, ?_, Or.inl ⟨rfl, Exit.noConfusion⟩⟩
    intro x hx
    rw [List.mem_append] at hx
    rcases hx with hx | hx
    · simp only [List.mem_singleton] at hx
      rw [hx]; exact Or.inl rfl
    · exact blCalls_io _ _ _ x hx
  | blAbortLast _ f msg res val _ _ _ =>
    refine ⟨_, ?_, Or.inl ⟨rfl, Exit.noConfusion⟩⟩
    intro x hx
    rw [List.mem_append, List.mem_append] at hx
    rcases hx with (hx | hx) | hx
    · simp only [List.mem_singleton] at hx
      rw [hx]; exact Or.inl rfl
    · exact blCalls_io _ _ _ x hx
    · simp only [List.mem_singleton] at hx
      rw [hx]; exact Or.inr rfl
  | blDone _ f _ _ _ =>
    refine ⟨[.sendval CMD_UPDATE] ++
      (List.range (nchunks (readSize opts f))).flatMap
        (blCalls (readData opts f) (readSize opts f)) ++ [.recvval], ?_, Or.inr ⟨?_, rfl⟩⟩
    · intro x hx
      rw [List.mem_append, List.mem_append] at hx
      rcases hx with (hx | hx) | hx
      · simp only [List.mem_singleton] at hx
        rw [hx]; exact Or.inl rfl
      · exact blCalls_io _ _ _ x hx
      · simp only [List.mem_singleton] at hx
        rw [hx]; exact Or.inr rfl
    · simp only [List.append_assoc, List.singleton_append]

/-- C15 (the claim fails on the abort paths): three runs that open the connection and end
by a protocol mismatch (probe answered with `RES_ERROR`, ForceMode off), by the image
validation error (a file of 6 bytes) and by the file I/O error (the file cannot be
opened); none of them calls `close`. -/
theorem close_missing_on_abort :
    ((run envError 0 (some "fw.bin")).exit? = some (.errx "Connection failed" 1 0) ∧
      Event.openserial ∈ (run envError 0 (some "fw.bin")).state.trace ∧
      Event.close ∉ (run envError 0 (some "fw.bin")).state.trace) ∧
    ((run envBad6 0 (some "fw.bin")).exit? = some (.invalidImage "fw.bin") ∧
      Event.openserial ∈ (run envBad6 0 (some "fw.bin")).state.trace ∧
      Event.close ∉ (run envBad6 0 (some "fw.bin")).state.trace) ∧
    ((run envNoFile 0 (some "fw.bin")).exit? = some (.err "fw.bin") ∧
      Event.openserial ∈ (run envNoFile 0 (some "fw.bin")).state.trace ∧
      Event.close ∉ (run envNoFile 0 (some "fw.bin")).state.trace) := by
  decide

/-- C15 (amended): a run that prints the version makes no transport call; every other
run opens the serial connection once, as its first transport call, so before any command
is sent; `close` is called exactly by the runs that return 0 (update or query
completed), once and as their last transport call; a run that ends by `errx` or `err`
(image validation failure, protocol mismatch abort, file I/O failure) never calls
`close`. -/
theorem close_iff_success (env : Env) (opts : Nat) (filename : Option String) :
    (flag opts opt_V = true → (run env opts filename).state.trace = []) ∧
    (flag opts opt_V = false →
      ∃ t, (run env opts filename).state.trace = .openserial :: t ∧ Event.openserial ∉ t) ∧
    (Event.close ∈ (run env opts filename).state.trace ↔
      (flag opts opt_V = false ∧ (run env opts filename).exit? = some (.ret 0))) ∧
    (Event.close ∈ (run env opts filename).state.trace →
      ∃ t, (run env opts filename).state.trace = t ++ [.close] ∧ Event.close ∉ t) := by
  cases hV : flag opts opt_V with
  | true =>
    rw [run_version env opts filename hV]
    simp [Res.state, State.after, State.init]
  | false =>
    obtain ⟨e, st, rest, hrun, htr, hs⟩ := run_shape env opts filename hV
    obtain ⟨body, hio, hcase⟩ := shape_body env opts filename e rest hs
    have hno : Event.openserial ∉ body := fun h => by
      rcases hio _ h with h1 | h1 <;> exact Bool.noConfusion h1
    have hnc : Event.close ∉ body := fun h => by
      rcases hio _ h with h1 | h1 <;> exact Bool.noConfusion h1
    rw [hrun]
    simp only [Res.state, Res.exit?, Option.some.injEq]
    rw [htr]
    rcases hcase with ⟨hrest, hne⟩ | ⟨hrest, he⟩
    · subst hrest
      have hnc2 : Event.close ∉ probeCalls ++ rest := by
        simp only [List.mem_append, not_or]
        exact ⟨by decide, hnc⟩
      refine ⟨fun h => Bool.noConfusion h,
        fun _ => ⟨[Event.sendval CMD_PROBE, Event.recvval] ++ rest, rfl, ?_⟩, ?_, ?_⟩
      · simp only [List.mem_cons, List.mem_append, List.not_mem_nil, not_or, or_false]
        exact ⟨⟨Event.noConfusion, Event.noConfusion⟩, hno⟩
      · exact ⟨fun h => absurd h hnc2, fun h => absurd h.2 hne⟩
      · exact fun h => absurd h hnc2
    · subst hrest he
      refine ⟨fun h => Bool.noConfusion h,
        fun _ => ⟨[Event.sendval CMD_PROBE, Event.recvval] ++ (body ++ [Event.close]), rfl, ?_⟩,
        ?_, ?_⟩
      · simp only [List.mem_cons, List.mem_append, List.mem_singleton, List.not_mem_nil,
          not_or, or_false]
        exact ⟨⟨Event.noConfusion, Event.noConfusion⟩, ⟨hno, Event.noConfusion⟩⟩
      · exact ⟨fun _ => ⟨trivial, rfl⟩, fun _ => by simp⟩
      · intro _
        refine ⟨probeCalls ++ body, by simp only [List.append_assoc], ?_⟩
        simp only [List.mem_append, not_or]
        exact ⟨by decide, hnc⟩

/-! ## The protocol monitor -/

theorem Pending.after_append (t1 t2 : List Event) :
    ∀ p : Pending, p.after (t1 ++ t2) =
      match p.after t1 with
      | some q => q.after t2
      | none => none := by
  induction t1 with
  | nil => intro p; rfl
  | cons e t ih =>
    intro p
    simp only [List.cons_append, Pending.after]
    cases p.step e with
    | none => rfl
    | some q => exact ih q

theorem after_fwCalls (data : List UInt8) (size : Int) (k : Nat) :
    Pending.idle.after (fwCalls data size k) = some .idle := rfl

theorem after_fwCalls_range (data : List UInt8) (size : Int) (m : Nat) :
    Pending.idle.after ((List.range m).flatMap (fwCalls data size)) = some .idle := by
  induction m with
  | zero => rfl
  | succ m ih =>
    rw [List.range_succ, List.flatMap_append, Pending.after_append, ih]
    simp only [List.flatMap_cons, List.flatMap_nil, List.append_nil]
    exact after_fwCalls data size m

theorem after_blCalls_first (data : List UInt8) (size : Int) (k : Nat) :
    Pending.updateData.after (blCalls data size k) = some .updateIdle := rfl

theorem after_blCalls_next (data : List UInt8) (size : Int) (k : Nat) :
    Pending.updateIdle.after (blCalls data size k) = some .updateIdle := rfl

theorem after_blCalls_range (data : List UInt8) (size : Int) (m : Nat) :
    Pending.updateData.after ((List.range (m + 1)).flatMap (blCalls data size)) =
      some .updateIdle := by
  induction m with
  | zero =>
    simp only [List.range_succ, List.range_zero, List.nil_append, List.flatMap_cons,
      List.flatMap_nil, List.append_nil]
    exact after_blCalls_first data size 0
  | succ m ih =>
    rw [List.range_succ, List.flatMap_append, Pending.after_append, ih]
    simp only [List.flatMap_cons, List.flatMap_nil, List.append_nil]
    exact after_blCalls_next data size (m + 1)

/-- After the probe exchange the calls of every run are accepted from `idle` and end in a
state where no send waits for its receive. -/
theorem shape_synchronous (env : Env) (opts : Nat) (filename : Option String) (e : Exit)
    (rest : List Event) (hs : Shape env opts filename e rest) :
    ∃ p, Pending.idle.after rest = some p ∧ p.quiet = true := by
  have hone : ∀ (f : FileStream), validLength opts (readSize opts f) →
      ∃ m, nchunks (readSize opts f) = m + 1 := by
    intro f hv
    have := (nchunks_ceil (readSize opts f) hv.1).2
    have h0 := hv.1
    exact ⟨nchunks (readSize opts f) - 1, by omega⟩
  cases hs with
  | probe msg res val => exact ⟨.idle, rfl, rfl⟩
  | noFile _ _ => exact ⟨.idle, rfl, rfl⟩
  | failedRead _ _ _ _ _ => exact ⟨.idle, rfl, rfl⟩
  | invalid _ _ _ _ => exact ⟨.idle, rfl, rfl⟩
  | queryInfo msg res val => exact ⟨.idle, rfl, rfl⟩
  | queryRead msg res val => exact ⟨.idle, rfl, rfl⟩
  | queryDone => exact ⟨.closed, rfl, rfl⟩
  | fwAbort _ f m msg res val _ _ _ _ => exact ⟨.idle, after_fwCalls_range _ _ _, rfl⟩
  | fwDone _ f _ _ _ =>
    refine ⟨.closed, ?_, rfl⟩
    rw [Pending.after_append, after_fwCalls_range]
    rfl
  | blAbort _ f m msg res val _ _ _ _ =>
    refine ⟨.updateIdle, ?_, rfl⟩
    rw [Pending.after_append]
    exact after_blCalls_range _ _ m
  | blAbortLast _ f msg res val _ hv _ =>
    obtain ⟨m, hm⟩ := hone f hv
    refine ⟨.idle, ?_, rfl⟩
    rw [hm, Pending.after_append, Pending.after_append]
    show (match (match some Pending.updateData with
        | some q => q.after _
        | none => none) with
      | some q => q.after [Event.recvval]
      | none => none) = some Pending.idle
    simp only [after_blCalls_range]
    rfl
  | blDone _ f _ hv _ =>
    obtain ⟨m, hm⟩ := hone f hv
    refine ⟨.closed, ?_, rfl⟩
    rw [hm, Pending.after_append, Pending.after_append]
    show (match (match some Pending.updateData with
        | some q => q.after _
        | none => none) with
      | some q => q.after [Event.recvval, Event.close]
      | none => none) = some Pending.closed
    simp only [after_blCalls_range]
    rfl

/-- C16: strictly synchronous request and response.  The transport trace of every run
(query, firmware update, bootloader update, complete or ended at a check, and the run
that only prints the version) is accepted by the monitor of the protocol: a command code
(`Probe`, `Info`, `Read`, `Write`, `Update`) is sent only when no command is outstanding,
it is followed by its arguments and data and then by a blocking receive before the next
command code is sent, and the run never ends with a send left without its receive; a
run that opens the connection starts with the probe exchange.  The
monitor refuses a trace that sends `Info` and `Read` before receiving anything, a trace
with two `Write` commands outstanding at once, and a trace that ends with a `Write` not
answered. -/
theorem synchronous_trace (env : Env) (opts : Nat) (filename : Option String) :
    synchronous (run env opts filename).state.trace = true ∧
    (flag opts opt_V = false →
      ∃ rest p, (run env opts filename).state.trace =
          [.openserial, .sendval CMD_PROBE, .recvval] ++ rest ∧
        Pending.idle.after rest = some p ∧ p.quiet = true) ∧
    synchronous pipelinedQuery = false ∧
    synchronous pipelinedWrites = false ∧
    synchronous unansweredWrite = false := by
  refine ⟨?_, ?_, by decide, by decide, by decide⟩
  · cases hV : flag opts opt_V with
    | true =>
      rw [run_version env opts filename hV]
      rfl
    | false =>
      obtain ⟨e, st, rest, hrun, htr, hs⟩ := run_shape env opts filename hV
      obtain ⟨p, hp, hq⟩ := shape_synchronous env opts filename e rest hs
      rw [hrun]
      simp only [Res.state]
      rw [htr]
      unfold synchronous
      rw [Pending.after_append]
      show (match Pending.idle.after rest with
        | some p => p.quiet
        | none => false) = true
      rw [hp]
      exact hq
  · intro hV
    obtain ⟨e, st, rest, hrun, htr, hs⟩ := run_shape env opts filename hV
    obtain ⟨p, hp, hq⟩ := shape_synchronous env opts filename e rest hs
    refine ⟨rest, p, ?_, hp, hq⟩
    rw [hrun]
    exact htr

end ESCape32
